import Mathlib

/-!
Image-filtering web server: request buffer, request-line parser, dispatch
and upload.

A shallow embedding of `request.c`, `response.c` and `image_server.c`.

Conventions of the embedding.

* A byte is a `Nat`; a C string is the list of its bytes before the
  terminating zero byte (`List Nat`).
* Memory that the C code indexes without a bound (the receive buffer, the
  parameter slots of a request) is a total function from offsets to
  contents: an offset past the end of the declared array stands for the
  memory that follows it.  Loops that carry no bound in the source take
  `fuel` and report when it runs out.
* `int` variables that can go negative are `Int`.
* A pointer that may be `NULL` is an `Option`.
-/

namespace ImgSrv

set_option maxRecDepth 100000

/-! ## Constants -/

/-- Size of the receive buffer (`#define MAXLINE 1024`, response.c line 1). -/
def MAXLINE : Nat := 1024

/-- Number of parameter slots of a request.  `request.h` is not part of the
sources; the value is the one printed by the error message of `parse_query`
("the maximum number of query params is 5"). -/
def MAX_QUERY_PARAMS : Nat := 5

/-- Bytes of a string literal. -/
def str (s : String) : List Nat := s.toList.map Char.toNat

/-- Carriage return. -/
def CR : Nat := 13
/-- Line feed. -/
def LF : Nat := 10
/-- The space character. -/
def SP : Nat := 32
/-- The character `?`. -/
def QMARK : Nat := 63
/-- The character `&`. -/
def AMP : Nat := 38
/-- The character `=`. -/
def EQS : Nat := 61
/-- The character `/`. -/
def SLASH : Nat := 47

/-- A region of memory addressed by offset. -/
abbrev Mem := Nat → Nat

/-- Memory that starts with the bytes of `l` and is zero afterwards. -/
def memOf (l : List Nat) : Mem := fun i => l.getD i 0

/-- The `k` bytes of `m` that start at offset `start`. -/
def slice (m : Mem) : Nat → Nat → List Nat
  | _, 0 => []
  | start, k + 1 => m start :: slice m (start + 1) k

/-- Content of the C string stored in the byte list `l`: the bytes before the
first zero byte. -/
def cstr (l : List Nat) : List Nat := l.takeWhile fun b => b != 0

/-! ## Outcomes -/

/-- How a call of a C function ends. -/
inductive Res (α : Type) where
  /-- The function returns. -/
  | ok (a : α)
  /-- The process calls `exit(status)` inside the function. -/
  | exit (status : Nat)
  /-- The call has no defined result (stated at each use). -/
  | undef
  /-- The fuel given to an unbounded loop ran out. -/
  | fuel

/-! ## Data model (`request.h`) -/

/-- One query parameter (`Fdata`) whose `name` is not `NULL`. -/
structure Fdata where
  name : List Nat
  value : List Nat
deriving DecidableEq, Repr

/-- The parsed request (`ReqData`).  `method` and `path` are `none` when the
pointer is `NULL` or does not point to a string.  `params i` is slot `i` of
the array for `i < MAX_QUERY_PARAMS`, `none` when its `name` is `NULL`;
larger indices stand for the memory behind the array. -/
structure ReqData where
  method : Option (List Nat)
  path : Option (List Nat)
  params : Nat → Option Fdata

/-- Per-connection state (`ClientState`). -/
structure ClientState where
  sock : Int
  buf : Mem
  num_bytes : Int
  reqData : Option ReqData

/-- Modelled from the spec: the macro `GET` of `request.h`, which is not among
the sources ("Detect method by fixed-prefix match (GET vs POST)"). -/
def GET : List Nat := str "GET"

/-- Modelled from the spec: the macro `POST` of `request.h`, which is not
among the sources. -/
def POST : List Nat := str "POST"

/-- The string macros of `request.h` whose values the sources do not show. -/
structure Header where
  MAIN_HTML : List Nat
  IMAGE_FILTER : List Nat
  IMAGE_UPLOAD : List Nat
  POST_BOUNDARY_HEADER : List Nat

/-- Directory of the images (`#define IMAGE_DIR "images/"`, response.c). -/
def IMAGE_DIR : List Nat := str "images/"

/-! ## The client socket -/

/-- What the peer will deliver, in arrival order: `some chunk` is a run of
bytes that one `read` can return at most, `none` is a failing `read`; the
empty list is a closed connection. -/
abbrev Sock := List (Option (List Nat))

/-- One call `read(fd, dst, count)`: the return value, the bytes stored and
the socket afterwards.  A negative `count` is what the `size_t` conversion
makes of it, larger than any chunk. -/
def sockRead (s : Sock) (count : Int) : Int × List Nat × Sock :=
  match s with
  | [] => (0, [], [])
  | none :: rest => (-1, [], rest)
  | some chunk :: rest =>
    let lim := if count < 0 then chunk.length else count.toNat
    let got := chunk.take lim
    ((got.length : Int), got,
      if lim < chunk.length then some (chunk.drop lim) :: rest else rest)

/-! ## Line-oriented reader (`request.c` lines 38-119) -/

/-- Loop of `find_network_newline`: `todo` iterations remain, `i` is the
loop variable. -/
def fnnLoop (buf : Mem) : Nat → Nat → Int
  | 0, _ => -1
  | todo + 1, i =>
    if buf i = CR ∧ buf (i + 1) = LF then ((i + 2 : Nat) : Int)
    else fnnLoop buf todo (i + 1)

/-- Embedding of `find_network_newline(buf, inbuf)`: `while (i < inbuf)`
starting at `i = 0`, testing `buf[i]` and `buf[i + 1]`. -/
def find_network_newline (buf : Mem) (inbuf : Int) : Int :=
  fnnLoop buf inbuf.toNat 0

/-- Effect of `memmove(buf, buf + position, len)` on the buffer. -/
def memmoveFront (buf : Mem) (position len : Nat) : Mem :=
  fun j => if j < len then buf (position + j) else buf j

/-- Effect of `buf[k] = v` for an `int` index; a negative index is outside
the memory described by `buf`. -/
def setByte (buf : Mem) (k : Int) (v : Nat) : Mem :=
  fun j => if (j : Int) = k then v else buf j

/-- Effect of storing `data` at `buf + off`. -/
def writeAt (buf : Mem) (off : Int) (data : List Nat) : Mem :=
  fun j =>
    let k := (j : Int) - off
    if 0 ≤ k ∧ k < data.length then data.getD k.toNat 0 else buf j

/-- Embedding of `remove_buffered_line`.  When no terminator is found the
state is unchanged.  `undef` is the call of `memmove` with a negative length
(converted to `size_t`). -/
def remove_buffered_line (client : ClientState) : Res ClientState :=
  let position := find_network_newline client.buf client.num_bytes
  if position = -1 then .ok client
  else
    let len := client.num_bytes - position
    if len < 0 then .undef
    else
      let moved := memmoveFront client.buf position.toNat len.toNat
      .ok { client with buf := setByte moved len 0, num_bytes := len }

/-- Embedding of `read_from_client`: the return value, the client and the
socket afterwards. -/
def read_from_client (client : ClientState) (s : Sock) : Int × ClientState × Sock :=
  if client.num_bytes = (MAXLINE : Int) - 1 then
    let r := sockRead s ((MAXLINE : Int) - 1)
    if r.1 < 0 then (-1, client, r.2.2)
    else
      (r.1, { client with buf := setByte (writeAt client.buf 0 r.2.1) r.1 0,
                          num_bytes := r.1 }, r.2.2)
  else
    let r := sockRead s ((MAXLINE : Int) - client.num_bytes - 1)
    if r.1 < 0 then (-1, client, r.2.2)
    else
      (r.1, { client with
                buf := setByte (writeAt client.buf client.num_bytes r.2.1)
                         (client.num_bytes + r.1) 0,
                num_bytes := client.num_bytes + r.1 }, r.2.2)

/-! ## Request-line parser (`request.c` lines 136-293) -/

/-- Loop `for (q = 0; q < strlen(token); q++) if (token[q] == '=') ...` of
`parse_query`: the index of the first `=`, and `0` when there is none. -/
def eqLoop : List Nat → Nat → Nat
  | [], _ => 0
  | c :: cs, q => if c = EQS then q else eqLoop cs (q + 1)

/-- One call of `strtok` with the delimiter `&` on the text that is left:
the token and the text after it, `none` when `strtok` returns `NULL`. -/
def strtok (s : List Nat) : Option (List Nat × List Nat) :=
  match s.dropWhile fun b => b == AMP with
  | [] => none
  | c :: cs =>
    some ((c :: cs).takeWhile (fun b => b != AMP),
          ((c :: cs).dropWhile fun b => b != AMP).drop 1)

/-- Effect of assigning `name` and `value` of `req->params[i]`. -/
def setParam (req : ReqData) (i : Nat) (f : Option Fdata) : ReqData :=
  { req with params := fun j => if j = i then f else req.params j }

/-- The `while (token != NULL)` loop of `parse_query`; `rest` is the text
`strtok` has not consumed, `count` the slot to fill. -/
def queryLoop : Nat → List Nat → Nat → ReqData → Res ReqData
  | 0, _, _, _ => .fuel
  | n + 1, rest, count, req =>
    match strtok rest with
    | none => .ok req
    | some (token, rest1) =>
      let eq := eqLoop token 0
      if eq = 0 then .exit 1
      else
        queryLoop n rest1 (count + 1)
          (setParam req count (some ⟨token.take eq, token.drop (eq + 1)⟩))

/-- Embedding of `parse_query(req, str)`; `s` is the content of the string
`str`.  Every round of the loop consumes at least one byte, so the loop is
given `s.length + 1` rounds. -/
def parse_query (req : ReqData) (s : List Nat) : Res ReqData :=
  let numParam := 1 + s.count AMP
  if numParam > MAX_QUERY_PARAMS then .exit 1
  else queryLoop (s.length + 1) s 0 req

/-- Scan `while (!stop(buf[i])) i++`: the first index from `i` on whose byte
satisfies `stop`, within `fuel` steps. -/
def scanTo (buf : Mem) (stop : Nat → Bool) : Nat → Nat → Option Nat
  | 0, _ => none
  | fuel + 1, i => if stop (buf i) then some i else scanTo buf stop fuel (i + 1)

/-- The loop `for (j = 0; j < MAX_QUERY_PARAMS; j++)` that sets every slot
of the array to `NULL`. -/
def clearParams (req : ReqData) : ReqData :=
  { req with params := fun j => if j < MAX_QUERY_PARAMS then none else req.params j }

/-- Embedding of `parse_req_start_line`.  `fresh` is the content of the block
that `malloc(sizeof(ReqData))` returns (it is not initialised by `malloc`),
`fuel` bounds each of the scans for `?` and the space.  The result is the
return value and the client. -/
def parse_req_start_line (fuel : Nat) (fresh : ReqData) (client : ClientState) :
    Res (Int × ClientState) :=
  let buf := client.buf
  let end_ := find_network_newline buf client.num_bytes
  if end_ = -1 then .ok (0, client)
  else if buf 0 = 71 ∧ buf 1 = 69 ∧ buf 2 = 84 then
    match scanTo buf (fun b => b == QMARK || b == SP) fuel 4 with
    | none => .fuel
    | some stop =>
      let path_len := stop - 4
      let req := { fresh with method := some GET, path := some (cstr (slice buf 4 path_len)) }
      if buf (4 + path_len) = QMARK then
        match scanTo buf (fun b => b == SP) fuel (path_len + 5) with
        | none => .fuel
        | some qstop =>
          let query_str := cstr (slice buf (path_len + 5) (qstop - (path_len + 5)))
          match parse_query req query_str with
          | .ok req1 => .ok (1, { client with reqData := some req1 })
          | .exit st => .exit st
          | .undef => .undef
          | .fuel => .fuel
      else .ok (1, { client with reqData := some (clearParams req) })
  else if buf 0 = 80 ∧ buf 1 = 79 ∧ buf 2 = 83 ∧ buf 3 = 84 then
    match scanTo buf (fun b => b == SP) fuel 5 with
    | none => .fuel
    | some stop =>
      let path_len := stop - 5
      .ok (1, { client with reqData := some (clearParams
        { fresh with method := some POST, path := some (cstr (slice buf 5 path_len)) }) })
  else .ok (1, { client with reqData := some fresh })

/-! ## Dispatch (`image_server.c` lines 38-115) -/

/-- The four behaviours of the worker. -/
inductive Route where
  | main_html
  | image_filter
  | image_upload
  | not_found
deriving DecidableEq, Repr

/-- The `if ... else if ...` chain of the child branch of `handle_client`
on the five `strcmp` results. -/
def select_response (h : Header) (method path : List Nat) : Route :=
  let ret1 := decide (method = GET)
  let ret2 := decide (path = h.MAIN_HTML)
  let ret3 := decide (path = h.IMAGE_FILTER)
  let ret4 := decide (method = POST)
  let ret5 := decide (path = h.IMAGE_UPLOAD)
  if ret1 && ret2 then .main_html
  else if ret1 && ret3 then .image_filter
  else if ret4 && ret5 then .image_upload
  else .not_found

/-- How one call of `handle_client` ends. -/
inductive Handled where
  /-- The call returns `code` in the process that made it (the server loop). -/
  | returned (code : Int) (c : ClientState) (s : Sock)
  /-- The process that called `handle_client` terminates through `exit(status)`
  without having become a child of `fork`. -/
  | exited (status : Nat)
  /-- The process is the child made by `fork`; it runs the response `r`,
  closes the socket and calls `exit(0)`. -/
  | worker (r : Route) (c : ClientState) (s : Sock)
  /-- The child made by `fork` reads `method` or `path` through a pointer
  that is `NULL` or points to no string. -/
  | worker_fault
  /-- Undefined result handed up from the parser. -/
  | undef
  /-- A scan of the parser ran out of fuel. -/
  | fuel

/-- The part of `handle_client` from `fork()` on; `forkRet` is what `fork`
returns in the process being followed. -/
def after_fork (h : Header) (forkRet : Int) (c : ClientState) (s : Sock) : Handled :=
  if forkRet < 0 then .exited 1
  else if forkRet > 0 then .returned 1 c s
  else
    match c.reqData with
    | none => .worker_fault
    | some req =>
      match req.method, req.path with
      | some m, some p => .worker (select_response h m p) c s
      | _, _ => .worker_fault

/-- Embedding of `handle_client`.  `s` is the socket of the client, `fresh`
and `fuel` are handed to `parse_req_start_line`, `forkRet` is the result of
`fork()` in the process being followed. -/
def handle_client (fuel : Nat) (fresh : ReqData) (h : Header) (forkRet : Int)
    (client : ClientState) (s : Sock) : Handled :=
  let r := sockRead s ((MAXLINE : Int) - 1)
  let numRead := r.1
  if numRead = 0 then .returned 1 client r.2.2
  else if numRead > 0 then
    let c1 := { client with num_bytes := numRead,
                            buf := setByte (writeAt client.buf 0 r.2.1) numRead 0 }
    match parse_req_start_line fuel fresh c1 with
    | .ok (_, c2) => after_fork h forkRet c2 r.2.2
    | .exit st => .exited st
    | .undef => .undef
    | .fuel => .fuel
  else .returned (-1) client r.2.2

/-! ## Responses (`response.c`) -/

/-- Message of a 500 response. -/
inductive Msg500 where
  | params_missing
  | contains_slash
  | filter_not_executable
  | image_not_readable
deriving DecidableEq, Repr

/-- Message of a 400 response. -/
inductive Msg400 where
  | no_boundary
  | no_filename
  | file_exists
  | bad_request
deriving DecidableEq, Repr

/-- What a response function writes to the client socket. -/
inductive Response where
  | image_header
  | not_found
  | internal_server_error (m : Msg500)
  | bad_request (m : Msg400)
  | see_other (location : List Nat)
deriving DecidableEq, Repr

/-- Mode argument of `access`. -/
inductive Mode where
  | f_ok
  | x_ok
  | r_ok
deriving DecidableEq, Repr

/-- A call that touches the file system or replaces the process image. -/
inductive SysCall where
  | access (path : List Nat) (mode : Mode)
  | fopen_read (path : List Nat)
  | fopen_write (path : List Nat)
  | write (path : List Nat) (count : Nat)
  | execl (path : List Nat)
deriving DecidableEq, Repr

/-- An entry of the file system: its bytes, the permissions `access` reports
(`executable` is the answer to `X_OK`, which a directory with search
permission also gives) and whether `execl` on it succeeds (`runnable`: a
regular file in a format the kernel can run). -/
structure File where
  content : List Nat
  readable : Bool
  executable : Bool
  runnable : Bool
deriving DecidableEq, Repr

/-- The file system: the file at each path, if there is one. -/
abbrev FS := List Nat → Option File

/-- Whether `access(path, mode)` returns `0`. -/
def accessOk (fs : FS) (path : List Nat) (mode : Mode) : Bool :=
  match fs path, mode with
  | none, _ => false
  | some _, .f_ok => true
  | some f, .x_ok => f.executable
  | some f, .r_ok => f.readable

/-- Whether `execl(path, path, NULL)` replaces the process image; otherwise
it returns `-1`. -/
def execlOk (fs : FS) (path : List Nat) : Bool :=
  match fs path with
  | none => false
  | some f => f.executable && f.runnable

/-- The results of the calls of `image_filter_response` that the file system
does not determine: whether `fopen` returns a stream and whether each of the
two `dup2` calls succeeds. -/
structure CallResults where
  fopen_ok : Bool
  dup2_stdin_ok : Bool
  dup2_stdout_ok : Bool
deriving DecidableEq, Repr

/-- All three calls succeed. -/
def callsOk : CallResults := ⟨true, true, true⟩

/-- How a response function ends. -/
inductive Ending where
  /-- The function returns to `handle_client`. -/
  | returned
  /-- The worker calls `exit(status)`. -/
  | exited (status : Nat)
  /-- The worker image is replaced by the filter `filter`, its standard
  input being the file `image`. -/
  | replaced (filter image : List Nat)
  /-- No defined result. -/
  | undef
  /-- Fuel ran out. -/
  | fuel
deriving DecidableEq, Repr

/-- Observable run of a response function: what went to the socket, the calls
made in order, the file system afterwards and the ending. -/
structure Run where
  sent : List Response
  calls : List SysCall
  fs : FS
  ending : Ending

/-- The scan `while (reqData->params[elem].name != NULL) elem++`. -/
def nameScan (params : Nat → Option Fdata) : Nat → Nat → Option Nat
  | 0, _ => none
  | fuel + 1, elem =>
    match params elem with
    | none => some elem
    | some _ => nameScan params fuel (elem + 1)

/-- Embedding of `image_filter_response`.  `fuel` bounds the scan of the
parameter names, `io` gives the results of `fopen` and of the two `dup2`
calls.  After the two `access` checks: `fopen`, then the image header is
written; a `NULL` stream makes `fileno(file)` undefined; a failing `dup2`
and a failing `execl` end in `exit(1)` after `perror`; a successful `execl`
replaces the process image. -/
def image_filter_response (fuel : Nat) (io : CallResults) (fs : FS) (reqData : ReqData) :
    Run :=
  match nameScan reqData.params fuel 0 with
  | none => ⟨[], [], fs, .fuel⟩
  | some elem =>
    if elem < 2 then ⟨[.internal_server_error .params_missing], [], fs, .exited 1⟩
    else
      match reqData.params 0, reqData.params 1 with
      | some p0, some p1 =>
        if p0.name ≠ str "image" ∨ p1.name ≠ str "filter" then
          ⟨[.internal_server_error .params_missing], [], fs, .exited 1⟩
        else if SLASH ∈ p0.value ∨ SLASH ∈ p1.value then
          ⟨[.internal_server_error .contains_slash], [], fs, .exited 1⟩
        else
          let filepath := str "filters/" ++ p1.value
          if accessOk fs filepath .x_ok = false then
            ⟨[.internal_server_error .filter_not_executable],
              [.access filepath .x_ok], fs, .exited 1⟩
          else
            let imagepath := str "images/" ++ p0.value
            if accessOk fs imagepath .r_ok = false then
              ⟨[.internal_server_error .image_not_readable],
                [.access filepath .x_ok, .access imagepath .r_ok], fs, .exited 1⟩
            else if io.fopen_ok = false then
              ⟨[.image_header],
                [.access filepath .x_ok, .access imagepath .r_ok, .fopen_read imagepath],
                fs, .undef⟩
            else if io.dup2_stdin_ok = false ∨ io.dup2_stdout_ok = false then
              ⟨[.image_header],
                [.access filepath .x_ok, .access imagepath .r_ok, .fopen_read imagepath],
                fs, .exited 1⟩
            else if execlOk fs filepath = false then
              ⟨[.image_header],
                [.access filepath .x_ok, .access imagepath .r_ok,
                 .fopen_read imagepath, .execl filepath], fs, .exited 1⟩
            else
              ⟨[.image_header],
                [.access filepath .x_ok, .access imagepath .r_ok,
                 .fopen_read imagepath, .execl filepath], fs,
                .replaced filepath imagepath⟩
      | _, _ => ⟨[], [], fs, .undef⟩

/-! ## Multipart upload (`request.c` lines 312-419, `response.c` lines 174-219) -/

/-- Embedding of `get_boundary`; `H` is `POST_BOUNDARY_HEADER`, a string
without zero byte, so that `strncmp(H, buf, len_header) == 0` says that the
buffer starts with the bytes of `H`.  The result is the returned string
(`none` for `NULL`), the client and the socket.  `undef`: a line shorter
than `len_header + 2` that passes both tests, for which `strncpy` leaves the
block without terminator before `strncat` reads it.  The terminator that
`strncat` stores one byte behind the block is not modelled. -/
def get_boundary (H : List Nat) :
    Nat → ClientState → Sock → Res (Option (List Nat) × ClientState × Sock)
  | 0, _, _ => .fuel
  | fuel + 1, client, s =>
    let len_header : Int := H.length
    let w := find_network_newline client.buf client.num_bytes
    if w > 0 then
      if w < len_header ∨ slice client.buf 0 H.length ≠ H then
        match remove_buffered_line client with
        | .ok c1 => get_boundary H fuel c1 s
        | .exit st => .exit st
        | .undef => .undef
        | .fuel => .fuel
      else if w - len_header + 1 < 3 then .undef
      else
        let appended := cstr (slice client.buf H.length (w - len_header - 1).toNat)
        .ok (some ((str "--" ++ appended).take (w - len_header).toNat), client, s)
    else
      let r := read_from_client client s
      if r.1 ≤ 0 then .ok (none, r.2.1, r.2.2)
      else get_boundary H fuel r.2.1 r.2.2

/-- Index of the last occurrence of `c` in `l` (`strrchr`), scanning from
index `i` with the best index so far in `acc`. -/
def strrchrFrom (c : Nat) : List Nat → Nat → Option Nat → Option Nat
  | [], _, acc => acc
  | b :: bs, i, acc => strrchrFrom c bs (i + 1) (if b = c then some i else acc)

/-- First loop of `get_bitmap_filename`: drop lines up to and including the
first one that starts with the boundary.  The result is `false` when the
function returns `NULL` from inside the loop. -/
def skip_to_boundary (boundary : List Nat) :
    Nat → ClientState → Sock → Res (Bool × ClientState × Sock)
  | 0, _, _ => .fuel
  | fuel + 1, client, s =>
    let len_boundary : Int := boundary.length
    let w := find_network_newline client.buf client.num_bytes
    if w > 0 then
      if w < len_boundary + 2 ∨ slice client.buf 0 boundary.length ≠ boundary then
        match remove_buffered_line client with
        | .ok c1 => skip_to_boundary boundary fuel c1 s
        | .exit st => .exit st
        | .undef => .undef
        | .fuel => .fuel
      else
        match remove_buffered_line client with
        | .ok c1 => .ok (true, c1, s)
        | .exit st => .exit st
        | .undef => .undef
        | .fuel => .fuel
    else
      let r := read_from_client client s
      if r.1 ≤ 0 then .ok (false, r.2.1, r.2.2)
      else skip_to_boundary boundary fuel r.2.1 r.2.2

/-- Embedding of `get_bitmap_filename`.  `undef`: no terminator in the buffer
after the boundary line (`where` is `-1` and `buf[where - 1]` lies before the
buffer), no `=` in the line (`strrchr` returns `NULL`), or a negative
`len_filename`. -/
def get_bitmap_filename (fuel : Nat) (boundary : List Nat) (client : ClientState)
    (s : Sock) : Res (Option (List Nat) × ClientState × Sock) :=
  match skip_to_boundary boundary fuel client s with
  | .exit st => .exit st
  | .undef => .undef
  | .fuel => .fuel
  | .ok (false, c, s1) => .ok (none, c, s1)
  | .ok (true, c, s1) =>
    let w := find_network_newline c.buf c.num_bytes
    if w < 1 then .undef
    else
      let cut := setByte c.buf (w - 1) 0
      match strrchrFrom EQS (cstr (slice cut 0 w.toNat)) 0 none with
      | none => .undef
      | some e =>
        let raw_filename := e + 2
        let len_filename : Int := w - 3 - raw_filename
        if len_filename < 0 then .undef
        else
          let filename := cstr (slice cut raw_filename len_filename.toNat)
          match remove_buffered_line { c with buf := setByte cut (w - 1) LF } with
          | .ok c1 => .ok (some filename, c1, s1)
          | .exit st => .exit st
          | .undef => .undef
          | .fuel => .fuel

/-- The `int` that `memcpy(&file_size, buf + 2, 4)` yields on a little-endian
machine with 32-bit `int`. -/
def file_size_at (buf : Mem) : Int :=
  let u := buf 2 % 256 + 256 * (buf 3 % 256) + 65536 * (buf 4 % 256) + 16777216 * (buf 5 % 256)
  if u < 2147483648 then (u : Int) else (u : Int) - 4294967296

/-- The `while ((numRead = read_from_client(client)) > 0)` loop of
`save_file_upload`; `file` is what has been written to `file_fd` so far.
`undef`: `write` with a negative count. -/
def upload_loop (file_size : Int) :
    Nat → ClientState → Sock → Int → List Nat → Res (Int × ClientState × Sock × List Nat)
  | 0, _, _, _, _ => .fuel
  | fuel + 1, client, s, total_bytes, file =>
    let r := read_from_client client s
    let numRead := r.1
    if numRead > 0 then
      let total := total_bytes + numRead
      if total ≥ file_size then
        let n := numRead - (total - file_size)
        if n < 0 then .undef
        else .ok (0, r.2.1, r.2.2, file ++ slice r.2.1.buf 0 n.toNat)
      else upload_loop file_size fuel r.2.1 r.2.2 total (file ++ slice r.2.1.buf 0 numRead.toNat)
    else .ok (0, r.2.1, r.2.2, file)

/-- Embedding of `save_file_upload`; the result is the return value, the
client, the socket and the bytes written to `file_fd`, in order.  `undef`:
`write` with a negative count. -/
def save_file_upload (fuel : Nat) (client : ClientState) (s : Sock) :
    Res (Int × ClientState × Sock × List Nat) :=
  match remove_buffered_line client with
  | .exit st => .exit st
  | .undef => .undef
  | .fuel => .fuel
  | .ok c1 =>
    match remove_buffered_line c1 with
    | .exit st => .exit st
    | .undef => .undef
    | .fuel => .fuel
    | .ok c2 =>
      let r := read_from_client c2 s
      let numRead := r.1
      let file_size := file_size_at r.2.1.buf
      if numRead < 0 then .undef
      else
        upload_loop file_size fuel r.2.1 r.2.2 numRead (slice r.2.1.buf 0 numRead.toNat)

/-- The file system after `path` has been created or truncated and `content`
written to it. -/
def fsWrite (fs : FS) (path content : List Nat) : FS :=
  fun q => if q = path then some ⟨content, true, false, false⟩ else fs q

/-- Embedding of `image_upload_response`; `fopen(path, "wb")` is taken to
succeed. -/
def image_upload_response (fuel : Nat) (h : Header) (fs : FS) (client : ClientState)
    (s : Sock) : Run :=
  match get_boundary h.POST_BOUNDARY_HEADER fuel client s with
  | .exit st => ⟨[], [], fs, .exited st⟩
  | .undef => ⟨[], [], fs, .undef⟩
  | .fuel => ⟨[], [], fs, .fuel⟩
  | .ok (none, _, _) => ⟨[.bad_request .no_boundary], [], fs, .exited 1⟩
  | .ok (some boundary, c1, s1) =>
    match get_bitmap_filename fuel boundary c1 s1 with
    | .exit st => ⟨[], [], fs, .exited st⟩
    | .undef => ⟨[], [], fs, .undef⟩
    | .fuel => ⟨[], [], fs, .fuel⟩
    | .ok (none, _, _) => ⟨[.bad_request .no_filename], [], fs, .exited 1⟩
    | .ok (some filename, c2, s2) =>
      let path := IMAGE_DIR ++ filename
      if accessOk fs path .f_ok then
        ⟨[.bad_request .file_exists], [.access path .f_ok], fs, .exited 1⟩
      else
        match save_file_upload fuel c2 s2 with
        | .exit st => ⟨[], [.access path .f_ok, .fopen_write path], fsWrite fs path [], .exited st⟩
        | .undef => ⟨[], [.access path .f_ok, .fopen_write path], fsWrite fs path [], .undef⟩
        | .fuel => ⟨[], [.access path .f_ok, .fopen_write path], fsWrite fs path [], .fuel⟩
        | .ok (flag, _, _, written) =>
          ⟨(if flag = -1 then [.bad_request .bad_request] else []) ++ [.see_other h.MAIN_HTML],
            [.access path .f_ok, .fopen_write path, .write path written.length],
            fsWrite fs path written, .returned⟩

/-! ## Specification-side notions for the query string -/

/-- The pieces of `s` between consecutive `&` characters. -/
def splitAmp : List Nat → List (List Nat)
  | [] => [[]]
  | c :: cs =>
    if c = AMP then [] :: splitAmp cs
    else
      match splitAmp cs with
      | [] => [[c]]
      | t :: ts => (c :: t) :: ts

/-- The `&`-separated non-empty tokens of a query string. -/
def tokens (s : List Nat) : List (List Nat) := (splitAmp s).filter fun t => !t.isEmpty

/-- A token is malformed when it contains no `=` or starts with `=`. -/
def malformed (t : List Nat) : Prop := EQS ∉ t ∨ t.head? = some EQS

instance (t : List Nat) : Decidable (malformed t) := by
  unfold malformed
  exact inferInstance

/-- The parameter a token stands for: the text before its first `=` and the
text after it. -/
def tokenParam (t : List Nat) : Fdata := ⟨t.take (eqLoop t 0), t.drop (eqLoop t 0 + 1)⟩

/-- The request after the parameters of the tokens `ts` have been stored in
the slots `k`, `k + 1`, ... -/
def storeTokens : List (List Nat) → Nat → ReqData → ReqData
  | [], _, req => req
  | t :: ts, k, req => storeTokens ts (k + 1) (setParam req k (some (tokenParam t)))

/-- The token `name=value` of a parameter. -/
def paramToken (p : Fdata) : List Nat := p.name ++ EQS :: p.value

/-- The query string `k1=v1&...&kn=vn` of a list of parameters. -/
def queryOf : List Fdata → List Nat
  | [] => []
  | [p] => paramToken p
  | p :: q :: ps => paramToken p ++ AMP :: queryOf (q :: ps)

/-- The parameters of a request as `log_request` and `remove_client` read
them: the slots before the first `NULL` name, at most `n` of them. -/
def paramList (params : Nat → Option Fdata) : Nat → Nat → List Fdata
  | 0, _ => []
  | n + 1, i =>
    match params i with
    | none => []
    | some p => p :: paramList params n (i + 1)

/-- The request line `GET <path>?<query> HTTP/1.1\r\n` of the request
grammar. -/
def requestLine (path query : List Nat) : List Nat :=
  str "GET " ++ (path ++ (QMARK :: (query ++ str " HTTP/1.1\r\n")))

/-- A request block whose pointers are all `NULL`. -/
def nullReq : ReqData := ⟨none, none, fun _ => none⟩

/-- What a call of `parse_req_start_line` leaves to be seen: the return
value, `method`, `path`, the five slots of the array and the parameters
`log_request` would print. -/
structure Parsed where
  ret : Int
  method : Option (List Nat)
  path : Option (List Nat)
  slots : List (Option Fdata)
  logged : List Fdata
deriving DecidableEq, Repr

/-- The view of a returned call of `parse_req_start_line` that stored a
request; `none` for every other ending. -/
def parsedView (res : Res (Int × ClientState)) : Option Parsed :=
  match res with
  | .ok (ret, c) =>
    match c.reqData with
    | some r =>
      some ⟨ret, r.method, r.path, (List.range MAX_QUERY_PARAMS).map r.params,
        paramList r.params MAX_QUERY_PARAMS 0⟩
    | none => none
  | _ => none

/-- The status with which the process that called `handle_client` exits, if
the call ends that way. -/
def serverExit : Handled → Option Nat
  | .exited st => some st
  | _ => none

/-- The parameters `image=cat.bmp`, `filter=blur` of the example request. -/
def catBlur : List Fdata := [⟨str "image", str "cat.bmp"⟩, ⟨str "filter", str "blur"⟩]

/-- A client whose buffer holds exactly the bytes `l`. -/
def clientOf (l : List Nat) : ClientState := ⟨4, memOf l, l.length, none⟩

/-- The macros of `request.h` with the paths used in the examples. -/
def exampleHeader : Header :=
  ⟨str "/main.html", str "/image-filter", str "/image-upload",
   str "Content-Type: multipart/form-data; boundary="⟩

/-- A request for `/image-filter` with the parameters `ps` and `NULL` names
in all further slots. -/
def filterRequest (ps : List Fdata) : ReqData :=
  ⟨some GET, some (str "/image-filter"), fun i => ps[i]?⟩

/-- The example parameters in the wrong order: `filter=blur`, `image=cat.bmp`. -/
def blurCat : List Fdata := [⟨str "filter", str "blur"⟩, ⟨str "image", str "cat.bmp"⟩]

/-- A file system without any file. -/
def emptyFS : FS := fun _ => none

/-- The destination `images/<filename>` that `image_upload_response`
extracts from the request, when `get_boundary` and `get_bitmap_filename`
both return a string. -/
def upload_path (fuel : Nat) (h : Header) (client : ClientState) (s : Sock) :
    Option (List Nat) :=
  match get_boundary h.POST_BOUNDARY_HEADER fuel client s with
  | .ok (some boundary, c1, s1) =>
    match get_bitmap_filename fuel boundary c1 s1 with
    | .ok (some filename, _, _) => some (IMAGE_DIR ++ filename)
    | _ => none
  | _ => none

/-- The bytes that a returned call of `save_file_upload` has written. -/
def writtenOf (res : Res (Int × ClientState × Sock × List Nat)) : Option (List Nat) :=
  match res with
  | .ok (_, _, _, w) => some w
  | _ => none

/-- Example upload: the header lines and the part header that follow the
request line `POST /image-upload HTTP/1.1`. -/
def uploadLines : List Nat :=
  str "Host: x\r\nContent-Type: multipart/form-data; boundary=----WebKit77\r\n" ++
  str "Content-Length: 300\r\n\r\n------WebKit77\r\n" ++
  str "Content-Disposition: form-data; name=\"myfile\"; filename=\"dog.bmp\"\r\n" ++
  str "Content-Type: image/bmp\r\n\r\n"

/-- Example payload: ten bytes whose size field (offset 2, little-endian)
declares the size 10. -/
def bmp10 : List Nat := [66, 77, 10, 0, 0, 0, 1, 2, 3, 4]

/-- The closing boundary line that follows the payload of the example upload. -/
def uploadFooter : List Nat := str "\r\n------WebKit77--\r\n"

/-- A file system whose only file is `images/dog.bmp`. -/
def dogFS : FS := fun q =>
  if q = str "images/dog.bmp" then some ⟨[1, 2, 3], true, false, false⟩ else none

/-- The client state that a call of `handle_client` leaves behind, for the
endings that carry one. -/
def handledClient : Handled → Option ClientState
  | .returned _ c _ => some c
  | .worker _ c _ => some c
  | _ => none

/-- The value `handle_client` returns to the server loop, if it returns. -/
def returnedCode : Handled → Option Int
  | .returned code _ _ => some code
  | _ => none

/-- Whether the call ends in the child made by `fork`. -/
def inWorker : Handled → Bool
  | .worker _ _ _ => true
  | .worker_fault => true
  | _ => false

/-! ## The connection table (`request.c` lines 9-15, `image_server.c` lines 179-194) -/

/-- Capacity of the connection table (`#define MAX_CLIENTS 10`). -/
def MAX_CLIENTS : Nat := 10

/-- Embedding of `init_clients(n)`: `raw` is the content of the block that
`malloc` returns; the loop stores `-1` in `sock` of the first `n` entries. -/
def init_clients (raw : Nat → ClientState) (n : Nat) : Nat → ClientState :=
  fun i => if i < n then { raw i with sock := -1 } else raw i

/-- The loop `for (i = 0; i < MAX_CLIENTS; i++) if (clients[i].sock < 0)
{ clients[i].sock = new_client_fd; break; }` of `main`, with `todo`
iterations left and loop variable `i`. -/
def registerLoop (clients : Nat → ClientState) (new_client_fd : Int) :
    Nat → Nat → Nat → ClientState
  | 0, _ => clients
  | todo + 1, i =>
    if (clients i).sock < 0 then
      fun j => if j = i then { clients i with sock := new_client_fd } else clients j
    else registerLoop clients new_client_fd todo (i + 1)

/-- The registration step of `main` for the result `new_client_fd` of
`accept_connection`: the connection table afterwards. -/
def main_register (clients : Nat → ClientState) (new_client_fd : Int) : Nat → ClientState :=
  if new_client_fd ≥ 0 then registerLoop clients new_client_fd MAX_CLIENTS 0 else clients

/-- Whether a call ends without a defined result. -/
def isUndef {α : Type} : Res α → Bool
  | .undef => true
  | _ => false

/-- The string that a returned call of `get_boundary` or
`get_bitmap_filename` yields (`some none` for `NULL`); `none` when the call
does not return. -/
def returnedString (res : Res (Option (List Nat) × ClientState × Sock)) :
    Option (Option (List Nat)) :=
  match res with
  | .ok (r, _, _) => some r
  | _ => none

/-- A file system with the executable `filters/blur` and the readable
`images/cat.bmp`. -/
def filterFS : FS := fun q =>
  if q = str "filters/blur" then some ⟨[], true, true, true⟩
  else if q = str "images/cat.bmp" then some ⟨bmp10, true, false, false⟩
  else none

/-- A file system in which `filters/..` is a directory that may be searched
(so `access(X_OK)` succeeds on it and `execl` does not), next to the
executable `filters/blur` and the readable `images/cat.bmp`. -/
def dirFS : FS := fun q =>
  if q = str "filters/.." then some ⟨[], true, true, false⟩
  else filterFS q

/-- The block that `malloc` hands out again after the request
`a=1&b=2&x=1` has been freed: `free` has overwritten `method` and `path`,
the parameter slots still hold the old pointers. -/
def staleBlock : ReqData :=
  ⟨none, none, fun i =>
    ([⟨str "a", str "1"⟩, ⟨str "b", str "2"⟩, ⟨str "x", str "1"⟩] : List Fdata)[i]?⟩

/-! ## Specification-side notions for lines and the buffered stream -/

/-- The offset just behind the first CRLF pair of the byte list `l`, if it
has one. -/
def lineEnd : List Nat → Option Nat
  | [] => none
  | [_] => none
  | a :: b :: rest =>
    if a = CR ∧ b = LF then some 2 else (lineEnd (b :: rest)).map fun p => p + 1

/-- A CRLF-terminated line: the first CRLF pair of `l` is its end. -/
def isLine (l : List Nat) : Prop := lineEnd l = some l.length

instance (l : List Nat) : Decidable (isLine l) := by
  unfold isLine
  exact inferInstance

/-- The client buffers exactly the bytes `l`, followed by the zero byte that
every read and `remove_buffered_line` store behind them. -/
def Buffered (c : ClientState) (l : List Nat) : Prop :=
  c.num_bytes = (l.length : Int) ∧ slice c.buf 0 l.length = l ∧ c.buf l.length = 0

instance (c : ClientState) (l : List Nat) : Decidable (Buffered c l) := by
  unfold Buffered
  exact inferInstance

/-! ## Lemmas on buffers and the terminator search -/

theorem length_slice (m : Mem) (k : Nat) : ∀ start, (slice m start k).length = k := by
  induction k with
  | zero => intro start; rfl
  | succ k ih => intro start; simp [slice, ih]

theorem slice_add (m : Mem) (a b : Nat) :
    ∀ start, slice m start (a + b) = slice m start a ++ slice m (start + a) b := by
  induction a with
  | zero => intro start; simp [slice]
  | succ a ih =>
    intro start
    have h : a + 1 + b = (a + b) + 1 := by omega
    rw [h]
    simp only [slice, List.cons_append, ih]
    have h2 : start + 1 + a = start + (a + 1) := by omega
    rw [h2]

theorem slice_eq_append (m : Mem) (a b : List Nat) (start : Nat)
    (h : slice m start (a ++ b).length = a ++ b) :
    slice m start a.length = a ∧ slice m (start + a.length) b.length = b := by
  rw [List.length_append, slice_add] at h
  exact List.append_inj h (by simp [length_slice])

theorem slice_eq_cons (m : Mem) (x : Nat) (l : List Nat) (start : Nat)
    (h : slice m start (x :: l).length = x :: l) :
    m start = x ∧ slice m (start + 1) l.length = l := by
  simpa [slice] using h

theorem slice_getD (m : Mem) (l : List Nat) :
    ∀ start, slice m start l.length = l → ∀ j, j < l.length → m (start + j) = l.getD j 0 := by
  induction l with
  | nil => intro start _ j hj; simp at hj
  | cons x l ih =>
    intro start h j hj
    obtain ⟨h0, h1⟩ := slice_eq_cons m x l start h
    cases j with
    | zero => simpa using h0
    | succ j =>
      have := ih (start + 1) h1 j (by simpa using hj)
      have e : start + (j + 1) = start + 1 + j := by omega
      rw [e, this]
      simp

/-- The loop returns the end of the first terminator at or after `k`. -/
theorem fnnLoop_found (buf : Mem) :
    ∀ (todo k i : Nat), k ≤ i → i < k + todo →
      (buf i = CR ∧ buf (i + 1) = LF) →
      (∀ j, k ≤ j → j < i → ¬ (buf j = CR ∧ buf (j + 1) = LF)) →
      fnnLoop buf todo k = ((i + 2 : Nat) : Int) := by
  intro todo
  induction todo with
  | zero => intro k i h1 h2; omega
  | succ todo ih =>
    intro k i hki hlt hp hfirst
    by_cases hk : k = i
    · subst hk
      simp [fnnLoop, hp]
    · have hnot := hfirst k (Nat.le_refl k) (by omega)
      rw [fnnLoop, if_neg hnot]
      exact ih (k + 1) i (by omega) (by omega) hp
        (fun j hj1 hj2 => hfirst j (by omega) hj2)

/-- Without a terminator that starts before `k + todo` the loop returns `-1`. -/
theorem fnnLoop_none (buf : Mem) :
    ∀ (todo k : Nat),
      (∀ j, k ≤ j → j < k + todo → ¬ (buf j = CR ∧ buf (j + 1) = LF)) →
      fnnLoop buf todo k = -1 := by
  intro todo
  induction todo with
  | zero => intro k _; rfl
  | succ todo ih =>
    intro k h
    rw [fnnLoop, if_neg (h k (Nat.le_refl k) (by omega))]
    exact ih (k + 1) (fun j hj1 hj2 => h j (by omega) (by omega))

/-- A terminator that starts inside the searched range is found. -/
theorem fnnLoop_ne (buf : Mem) (todo k i : Nat) (h1 : k ≤ i) (h2 : i < k + todo)
    (hp : buf i = CR ∧ buf (i + 1) = LF) : fnnLoop buf todo k ≠ -1 := by
  have hex : ∃ i, k ≤ i ∧ i < k + todo ∧ (buf i = CR ∧ buf (i + 1) = LF) := ⟨i, h1, h2, hp⟩
  classical
  have hmin := Nat.find_spec hex
  have hlt := fun j (hj : j < Nat.find hex) => Nat.find_min hex hj
  rw [fnnLoop_found buf todo k (Nat.find hex) hmin.1 hmin.2.1 hmin.2.2
    (fun j hj1 hj2 hpj => hlt j hj2 ⟨hj1, by omega, hpj⟩)]
  omega

/-! ## C9 and C10: the terminator search and the removal of a line -/

/-- C9: when the first CRLF pair of the buffer starts at offset `i` and lies
inside the `n` buffered bytes (so it ends at `p = i + 2 ≤ n`),
`remove_buffered_line` returns with `num_bytes = n - p` and with the old
bytes `p .. n-1` at the front of the buffer, whatever their values (zero
bytes included); the socket and the parsed request are not touched. -/
theorem remove_buffered_line_removes_first_line (c : ClientState) (n i : Nat)
    (hn : c.num_bytes = (n : Int))
    (hpair : c.buf i = CR ∧ c.buf (i + 1) = LF)
    (hin : i + 2 ≤ n)
    (hfirst : ∀ j, j < i → ¬ (c.buf j = CR ∧ c.buf (j + 1) = LF)) :
    ∃ c1, remove_buffered_line c = .ok c1 ∧
      c1.num_bytes = (n : Int) - ((i + 2 : Nat) : Int) ∧
      (∀ j, j < n - (i + 2) → c1.buf j = c.buf (i + 2 + j)) ∧
      c1.sock = c.sock := by
  have hfind : find_network_newline c.buf c.num_bytes = ((i + 2 : Nat) : Int) := by
    rw [find_network_newline, hn, Int.toNat_ofNat]
    exact fnnLoop_found c.buf n 0 i (Nat.zero_le _) (by omega) hpair
      (fun j _ hj => hfirst j hj)
  have hlen : ¬ ((n : Int) - ((i + 2 : Nat) : Int) < 0) := by omega
  have hne : ¬ (((i + 2 : Nat) : Int) = -1) := by omega
  have hr : remove_buffered_line c = .ok
      { c with buf := setByte (memmoveFront c.buf ((i + 2 : Nat) : Int).toNat
                        ((n : Int) - ((i + 2 : Nat) : Int)).toNat)
                        ((n : Int) - ((i + 2 : Nat) : Int)) 0,
               num_bytes := (n : Int) - ((i + 2 : Nat) : Int) } := by
    rw [hn] at hfind
    simp only [remove_buffered_line, hn, hfind, if_neg hne, if_neg hlen]
  refine ⟨_, hr, rfl, ?_, rfl⟩
  intro j hj
  have h1 : ((n : Int) - ((i + 2 : Nat) : Int)).toNat = n - (i + 2) := by omega
  have h2 : ¬ ((j : Int) = (n : Int) - ((i + 2 : Nat) : Int)) := by omega
  simp only [setByte, memmoveFront, if_neg h2, h1, if_pos hj, Int.toNat_ofNat]

/-- Witness of C9: the buffer "hello\r\ngoodbye\r\nblah" with `n = 20`; the
first pair starts at offset 5, so 13 bytes remain. -/
theorem remove_buffered_line_removes_first_line_witness :
    ∃ c1, remove_buffered_line ⟨3, memOf (str "hello\r\ngoodbye\r\nblah"), 20, none⟩ = .ok c1 ∧
      c1.num_bytes = ((20 : Nat) : Int) - ((5 + 2 : Nat) : Int) ∧
      (∀ j, j < 20 - (5 + 2) →
        c1.buf j = memOf (str "hello\r\ngoodbye\r\nblah") (5 + 2 + j)) ∧
      c1.sock = 3 :=
  remove_buffered_line_removes_first_line
    ⟨3, memOf (str "hello\r\ngoodbye\r\nblah"), 20, none⟩ 20 5 rfl (by decide) (by decide)
    (by decide)

/-- C10 at the input `buf = "ab\r\n"`, `n = 3`: no CRLF pair lies inside the
first three bytes, yet the search tests `buf[2]` together with `buf[3]` and
returns `4` instead of `-1`; with another byte at index `3` and the same
first three bytes it returns `-1`, so the result depends on a byte at an
index `≥ n`. -/
theorem find_network_newline_reads_stale_byte :
    (∀ i, i + 1 < 3 → ¬ (memOf (str "ab\r\n") i = CR ∧ memOf (str "ab\r\n") (i + 1) = LF)) ∧
    find_network_newline (memOf (str "ab\r\n")) 3 = 4 ∧
    (∀ i, i < 3 → memOf (str "ab\r") i = memOf (str "ab\r\n") i) ∧
    find_network_newline (memOf (str "ab\r")) 3 = -1 := by
  refine ⟨?_, by decide, by decide, by decide⟩
  intro i hi
  have : i = 0 ∨ i = 1 := by omega
  rcases this with h | h <;> subst h <;> decide

/-! ## C2: dispatch on method and path -/

theorem GET_ne_POST : GET ≠ POST := by decide

/-- C2: in the child made by `fork`, for a parsed request with method `m` and
path `p`, `handle_client` runs exactly one response `r`: the form page iff
`m = GET` and `p = MAIN_HTML`, the image filter iff `m = GET` and
`p = IMAGE_FILTER`, the upload handler iff `m = POST` and `p = IMAGE_UPLOAD`,
and the 404 response in every other case.  The two paths `MAIN_HTML` and
`IMAGE_FILTER`, whose values are in the absent `request.h`, are taken to be
different strings. -/
theorem handle_client_selects_one_response (h : Header)
    (hdiff : h.MAIN_HTML ≠ h.IMAGE_FILTER)
    (c : ClientState) (s : Sock) (req : ReqData) (m p : List Nat)
    (hreq : c.reqData = some req) (hm : req.method = some m) (hp : req.path = some p) :
    ∃ r, after_fork h 0 c s = .worker r c s ∧
      (r = .main_html ↔ (m = GET ∧ p = h.MAIN_HTML)) ∧
      (r = .image_filter ↔ (m = GET ∧ p = h.IMAGE_FILTER)) ∧
      (r = .image_upload ↔ (m = POST ∧ p = h.IMAGE_UPLOAD)) ∧
      (r = .not_found ↔ (¬ (m = GET ∧ p = h.MAIN_HTML) ∧ ¬ (m = GET ∧ p = h.IMAGE_FILTER) ∧
        ¬ (m = POST ∧ p = h.IMAGE_UPLOAD))) := by
  refine ⟨select_response h m p, ?_, ?_⟩
  · simp [after_fork, hreq, hm, hp]
  · have hgp := GET_ne_POST
    unfold select_response
    by_cases h1 : m = GET <;> by_cases h2 : p = h.MAIN_HTML <;>
      by_cases h3 : p = h.IMAGE_FILTER <;> by_cases h4 : m = POST <;>
      by_cases h5 : p = h.IMAGE_UPLOAD <;>
      simp_all

/-- Witness of C2: the request `GET /image-filter` with the paths
`/main.html`, `/image-filter`, `/image-upload`. -/
theorem handle_client_selects_one_response_witness :
    (str "/main.html" ≠ str "/image-filter") ∧
    ∃ r, after_fork ⟨str "/main.html", str "/image-filter", str "/image-upload", str "b="⟩ 0
        ⟨4, memOf [], 0, some ⟨some GET, some (str "/image-filter"), fun _ => none⟩⟩ [] =
        .worker r ⟨4, memOf [], 0, some ⟨some GET, some (str "/image-filter"), fun _ => none⟩⟩ [] ∧
      (r = .main_html ↔ (GET = GET ∧ str "/image-filter" = str "/main.html")) ∧
      (r = .image_filter ↔ (GET = GET ∧ str "/image-filter" = str "/image-filter")) ∧
      (r = .image_upload ↔ (GET = POST ∧ str "/image-filter" = str "/image-upload")) ∧
      (r = .not_found ↔ (¬ (GET = GET ∧ str "/image-filter" = str "/main.html") ∧
        ¬ (GET = GET ∧ str "/image-filter" = str "/image-filter") ∧
        ¬ (GET = POST ∧ str "/image-filter" = str "/image-upload"))) :=
  ⟨by decide,
   handle_client_selects_one_response
     ⟨str "/main.html", str "/image-filter", str "/image-upload", str "b="⟩ (by decide)
     ⟨4, memOf [], 0, some ⟨some GET, some (str "/image-filter"), fun _ => none⟩⟩ []
     ⟨some GET, some (str "/image-filter"), fun _ => none⟩ GET (str "/image-filter") rfl rfl rfl⟩

/-! ## The tokens of a query string and the loop of `parse_query` -/

theorem splitAmp_eq (s : List Nat) :
    splitAmp s = s.takeWhile (fun b => b != AMP) ::
      (match s.dropWhile (fun b => b != AMP) with
       | [] => []
       | _ :: r => splitAmp r) := by
  induction s with
  | nil => rfl
  | cons c cs ih =>
    by_cases hc : c = AMP
    · subst hc
      simp [splitAmp]
    · rw [splitAmp, if_neg hc, ih]
      simp [hc]

theorem length_splitAmp (s : List Nat) : (splitAmp s).length = 1 + s.count AMP := by
  induction s with
  | nil => rfl
  | cons c cs ih =>
    by_cases hc : c = AMP
    · subst hc
      simp [splitAmp, ih]
      omega
    · rw [splitAmp, if_neg hc]
      have hcount : (c :: cs).count AMP = cs.count AMP := by
        rw [List.count_cons]
        simp [hc]
      rw [hcount, ← ih]
      cases h : splitAmp cs with
      | nil => rw [h] at ih; simp at ih; omega
      | cons t ts => simp

theorem length_tokens_le (s : List Nat) : (tokens s).length ≤ 1 + s.count AMP := by
  rw [← length_splitAmp]
  exact List.length_filter_le _ _

/-- What one call of `strtok` returns, in terms of the tokens. -/
theorem strtok_tokens (s : List Nat) :
    match strtok s with
    | none => tokens s = []
    | some (t, rest) => tokens s = t :: tokens rest ∧ rest.length < s.length := by
  induction s with
  | nil => simp [strtok, tokens, splitAmp]
  | cons c cs ih =>
    by_cases hc : c = AMP
    · subst hc
      have h1 : strtok (AMP :: cs) = strtok cs := by simp [strtok]
      have h2 : tokens (AMP :: cs) = tokens cs := by simp [tokens, splitAmp]
      rw [h1, h2]
      cases h : strtok cs with
      | none => rw [h] at ih; exact ih
      | some tr =>
        rw [h] at ih
        obtain ⟨t, rest⟩ := tr
        exact ⟨ih.1, by have := ih.2; simp; omega⟩
    · have hd : List.dropWhile (fun b => b == AMP) (c :: cs) = c :: cs := by
        simp [hc]
      have h1 : strtok (c :: cs) =
          some ((c :: cs).takeWhile (fun b => b != AMP),
            ((c :: cs).dropWhile fun b => b != AMP).drop 1) := by
        simp only [strtok, hd]
      rw [h1]
      have htw : (c :: cs).takeWhile (fun b => b != AMP) = c :: cs.takeWhile (fun b => b != AMP) := by
        simp [hc]
      have hdw : (c :: cs).dropWhile (fun b => b != AMP) = cs.dropWhile (fun b => b != AMP) := by
        simp [hc]
      refine ⟨?_, ?_⟩
      · rw [tokens, splitAmp_eq, htw, hdw]
        cases hr : cs.dropWhile (fun b => b != AMP) with
        | nil => simp [tokens, splitAmp]
        | cons x r => simp [tokens]
      · rw [hdw]
        have := (List.dropWhile_sublist (fun b => b != AMP) (l := cs)).length_le
        simp
        omega

theorem eqLoop_pos_iff : ∀ (l : List Nat) (q : Nat), 0 < q → (eqLoop l q = 0 ↔ EQS ∉ l) := by
  intro l
  induction l with
  | nil => intro q _; simp [eqLoop]
  | cons c cs ih =>
    intro q hq
    by_cases hc : c = EQS
    · subst hc
      simp [eqLoop]
      omega
    · rw [eqLoop, if_neg hc, ih (q + 1) (by omega)]
      simp [hc, Ne.symm hc]

/-- The test `eq == 0` of `parse_query` fires exactly on malformed tokens. -/
theorem eqLoop_eq_zero_iff (t : List Nat) : eqLoop t 0 = 0 ↔ malformed t := by
  cases t with
  | nil => simp [eqLoop, malformed]
  | cons c cs =>
    by_cases hc : c = EQS
    · subst hc
      simp [eqLoop, malformed]
    · rw [eqLoop, if_neg hc, eqLoop_pos_iff cs 1 (by omega)]
      simp [malformed, hc, Ne.symm hc]

theorem eqLoop_append (a b : List Nat) (ha : EQS ∉ a) :
    ∀ q, eqLoop (a ++ EQS :: b) q = q + a.length := by
  induction a with
  | nil => intro q; simp [eqLoop]
  | cons c cs ih =>
    intro q
    have hc : c ≠ EQS := fun h => ha (by simp [h])
    have hcs : EQS ∉ cs := fun h => ha (by simp [h])
    rw [List.cons_append, eqLoop, if_neg hc, ih hcs]
    simp
    omega

/-- With enough fuel the loop stores the parameters of all tokens when none
of them is malformed. -/
theorem queryLoop_ok :
    ∀ (fuel : Nat) (s : List Nat) (k : Nat) (req : ReqData), s.length < fuel →
      (∀ t ∈ tokens s, ¬ malformed t) →
      queryLoop fuel s k req = .ok (storeTokens (tokens s) k req) := by
  intro fuel
  induction fuel with
  | zero => intro s k req h; omega
  | succ n ih =>
    intro s k req hlen hall
    have hst := strtok_tokens s
    rw [queryLoop]
    cases h : strtok s with
    | none =>
      rw [h] at hst
      simp [hst, storeTokens]
    | some tr =>
      obtain ⟨t, rest⟩ := tr
      rw [h] at hst
      obtain ⟨htok, hrest⟩ := hst
      have hgood : ¬ eqLoop t 0 = 0 := by
        rw [eqLoop_eq_zero_iff]
        exact hall t (by rw [htok]; simp)
      simp only [if_neg hgood]
      rw [ih rest (k + 1) _ (by omega) (fun u hu => hall u (by rw [htok]; simp [hu]))]
      rw [htok]
      rfl

/-- With enough fuel the loop ends in `exit(1)` when some token is malformed. -/
theorem queryLoop_bad :
    ∀ (fuel : Nat) (s : List Nat) (k : Nat) (req : ReqData), s.length < fuel →
      (∃ t ∈ tokens s, malformed t) →
      queryLoop fuel s k req = .exit 1 := by
  intro fuel
  induction fuel with
  | zero => intro s k req h; omega
  | succ n ih =>
    intro s k req hlen hex
    have hst := strtok_tokens s
    rw [queryLoop]
    cases h : strtok s with
    | none =>
      rw [h] at hst
      obtain ⟨t, ht, _⟩ := hex
      simp [hst] at ht
    | some tr =>
      obtain ⟨t, rest⟩ := tr
      rw [h] at hst
      obtain ⟨htok, hrest⟩ := hst
      by_cases hbad : eqLoop t 0 = 0
      · simp only [if_pos hbad]
      · simp only [if_neg hbad]
        apply ih rest (k + 1) _ (by omega)
        obtain ⟨u, hu, hm⟩ := hex
        rw [htok] at hu
        rcases List.mem_cons.1 hu with hut | hur
        · subst hut
          exact absurd ((eqLoop_eq_zero_iff u).2 hm) hbad
        · exact ⟨u, hur, hm⟩

theorem storeTokens_method (ts : List (List Nat)) :
    ∀ (k : Nat) (req : ReqData), (storeTokens ts k req).method = req.method ∧
      (storeTokens ts k req).path = req.path := by
  induction ts with
  | nil => intro k req; exact ⟨rfl, rfl⟩
  | cons t ts ih =>
    intro k req
    rw [storeTokens]
    exact ih (k + 1) _

/-- Slot `j` after the tokens `ts` have been stored from slot `k` on. -/
theorem storeTokens_params (ts : List (List Nat)) :
    ∀ (k : Nat) (req : ReqData) (j : Nat),
      (storeTokens ts k req).params j =
        if k ≤ j ∧ j - k < ts.length then some (tokenParam (ts.getD (j - k) []))
        else req.params j := by
  induction ts with
  | nil => intro k req j; simp [storeTokens]
  | cons t ts ih =>
    intro k req j
    rw [storeTokens, ih]
    by_cases h1 : k + 1 ≤ j
    · have e : j - k = (j - (k + 1)) + 1 := by omega
      by_cases h2 : j - (k + 1) < ts.length
      · rw [if_pos ⟨h1, h2⟩, if_pos ⟨by omega, by simp; omega⟩, e]
        simp
      · rw [if_neg (fun h => h2 h.2), if_neg (fun h => h2 (by have := h.2; simp at this; omega))]
        have : j ≠ k := by omega
        simp [setParam, this]
    · rw [if_neg (fun h => h1 h.1)]
      by_cases h3 : j = k
      · subst h3
        simp [setParam]
      · rw [if_neg (fun h => h3 (by omega))]
        simp [setParam, h3]

theorem splitAmp_noamp (t : List Nat) (ht : AMP ∉ t) : splitAmp t = [t] := by
  induction t with
  | nil => rfl
  | cons c cs ih =>
    have hc : c ≠ AMP := fun h => ht (by simp [h])
    have hcs : AMP ∉ cs := fun h => ht (by simp [h])
    rw [splitAmp, if_neg hc, ih hcs]

theorem splitAmp_append (t rest : List Nat) (ht : AMP ∉ t) :
    splitAmp (t ++ AMP :: rest) = t :: splitAmp rest := by
  induction t with
  | nil => simp [splitAmp]
  | cons c cs ih =>
    have hc : c ≠ AMP := fun h => ht (by simp [h])
    have hcs : AMP ∉ cs := fun h => ht (by simp [h])
    rw [List.cons_append, splitAmp, if_neg hc, ih hcs]

theorem splitAmp_queryOf (ps : List Fdata) (hne : ps ≠ [])
    (hamp : ∀ p ∈ ps, AMP ∉ paramToken p) :
    splitAmp (queryOf ps) = ps.map paramToken := by
  induction ps with
  | nil => exact absurd rfl hne
  | cons p ps ih =>
    cases ps with
    | nil => simp [queryOf, splitAmp_noamp _ (hamp p (by simp))]
    | cons q ps =>
      rw [queryOf, splitAmp_append _ _ (hamp p (by simp)),
        ih (by simp) (fun r hr => hamp r (by simp [hr]))]
      simp

theorem paramToken_ne_nil (p : Fdata) : paramToken p ≠ [] := by
  simp [paramToken]

theorem tokens_queryOf (ps : List Fdata) (hne : ps ≠ [])
    (hamp : ∀ p ∈ ps, AMP ∉ paramToken p) :
    tokens (queryOf ps) = ps.map paramToken := by
  rw [tokens, splitAmp_queryOf ps hne hamp, List.filter_eq_self]
  intro t ht
  obtain ⟨p, _, rfl⟩ := List.mem_map.1 ht
  simp [paramToken]

theorem count_queryOf (ps : List Fdata) (hne : ps ≠ [])
    (hamp : ∀ p ∈ ps, AMP ∉ paramToken p) :
    1 + (queryOf ps).count AMP = ps.length := by
  rw [← length_splitAmp, splitAmp_queryOf ps hne hamp, List.length_map]

theorem tokenParam_paramToken (p : Fdata) (h : EQS ∉ p.name) :
    tokenParam (paramToken p) = p := by
  have he : eqLoop (paramToken p) 0 = p.name.length := by
    rw [paramToken, eqLoop_append _ _ h]
    simp
  rw [tokenParam, he, paramToken]
  cases p
  simp

theorem paramToken_wellformed (p : Fdata) (h : EQS ∉ p.name) (hne : p.name ≠ []) :
    ¬ malformed (paramToken p) := by
  rw [← eqLoop_eq_zero_iff, paramToken, eqLoop_append _ _ h]
  simp [hne]

/-- `parse_query` on a well-formed query string of at most five parameters
stores them in the slots from `0` on. -/
theorem parse_query_queryOf (req : ReqData) (ps : List Fdata) (hne : ps ≠ [])
    (hlen : ps.length ≤ MAX_QUERY_PARAMS)
    (hamp : ∀ p ∈ ps, AMP ∉ paramToken p)
    (hname : ∀ p ∈ ps, EQS ∉ p.name ∧ p.name ≠ []) :
    parse_query req (queryOf ps) = .ok (storeTokens (ps.map paramToken) 0 req) := by
  have hcnt := count_queryOf ps hne hamp
  have hnot : ¬ (1 + (queryOf ps).count AMP > MAX_QUERY_PARAMS) := by omega
  rw [parse_query]
  simp only [if_neg hnot]
  rw [queryLoop_ok _ _ _ _ (Nat.lt_succ_self _), tokens_queryOf ps hne hamp]
  intro t ht
  rw [tokens_queryOf ps hne hamp] at ht
  obtain ⟨p, hp, rfl⟩ := List.mem_map.1 ht
  exact paramToken_wellformed p (hname p hp).1 (hname p hp).2

/-! ## The scans of `parse_req_start_line` -/

theorem scanTo_slice (buf : Mem) (stop : Nat → Bool) (l : List Nat) :
    ∀ (i fuel : Nat), slice buf i l.length = l → (∀ b ∈ l, stop b = false) →
      stop (buf (i + l.length)) = true → l.length < fuel →
      scanTo buf stop fuel i = some (i + l.length) := by
  induction l with
  | nil =>
    intro i fuel _ _ hstop hfuel
    cases fuel with
    | zero => simp at hfuel
    | succ n =>
      simp only [List.length_nil, Nat.add_zero] at hstop
      simp [scanTo, hstop]
  | cons x l ih =>
    intro i fuel hs hall hstop hfuel
    obtain ⟨h0, h1⟩ := slice_eq_cons buf x l i hs
    cases fuel with
    | zero => simp at hfuel
    | succ n =>
      have hx : stop (buf i) = false := by rw [h0]; exact hall x (by simp)
      rw [scanTo, hx]
      have e : i + (x :: l).length = i + 1 + l.length := by simp; omega
      rw [e] at hstop ⊢
      simpa using ih (i + 1) n h1 (fun b hb => hall b (by simp [hb])) hstop
        (by simp at hfuel; omega)

/-- A buffer that starts with `GET `, a path, `?`, a query string and a
space, and holds a terminated line: `parse_req_start_line` hands the query
string to `parse_query` and passes its result on. -/
theorem parse_req_start_line_GET_query (fuel : Nat) (fresh : ReqData) (c : ClientState)
    (path q : List Nat)
    (hbuf : slice c.buf 0 (str "GET " ++ (path ++ (QMARK :: (q ++ [SP])))).length =
      str "GET " ++ (path ++ (QMARK :: (q ++ [SP]))))
    (hpath : ∀ b ∈ path, b ≠ QMARK ∧ b ≠ SP) (hq : ∀ b ∈ q, b ≠ SP)
    (hline : find_network_newline c.buf c.num_bytes ≠ -1)
    (hfuel : 4 + path.length + 1 + q.length < fuel) :
    parse_req_start_line fuel fresh c =
      match parse_query { fresh with method := some GET, path := some (cstr path) } (cstr q) with
      | .ok r => .ok (1, { c with reqData := some r })
      | .exit st => .exit st
      | .undef => .undef
      | .fuel => .fuel := by
  obtain ⟨hget, hrest⟩ := slice_eq_append c.buf _ _ 0 hbuf
  obtain ⟨hp, hrest2⟩ := slice_eq_append c.buf _ _ _ hrest
  obtain ⟨hqm, hrest3⟩ := slice_eq_cons c.buf _ _ _ hrest2
  obtain ⟨hqs, hrest4⟩ := slice_eq_append c.buf _ _ _ hrest3
  obtain ⟨hsp, _⟩ := slice_eq_cons c.buf _ _ _ hrest4
  have hlen4 : (str "GET ").length = 4 := by decide
  simp only [hlen4, Nat.zero_add] at hp hqm hqs hsp
  have hG := slice_getD c.buf _ 0 hget
  have h0 : c.buf 0 = 71 := by simpa using hG 0 (by decide)
  have h1 : c.buf 1 = 69 := by simpa using hG 1 (by decide)
  have h2 : c.buf 2 = 84 := by simpa using hG 2 (by decide)
  have hscan1 : scanTo c.buf (fun b => b == QMARK || b == SP) fuel 4 = some (4 + path.length) :=
    scanTo_slice c.buf _ path 4 fuel hp
      (fun b hb => by simp [(hpath b hb).1, (hpath b hb).2])
      (by rw [hqm]; decide) (by omega)
  have hscan2 : scanTo c.buf (fun b => b == SP) fuel (4 + path.length + 1)
      = some (4 + path.length + 1 + q.length) :=
    scanTo_slice c.buf _ q _ fuel hqs (fun b hb => by simp [hq b hb])
      (by rw [hsp]; decide) (by omega)
  have e1 : 4 + path.length - 4 = path.length := by omega
  have e2 : path.length + 5 = 4 + path.length + 1 := by omega
  have e3 : 4 + path.length + 1 + q.length - (4 + path.length + 1) = q.length := by omega
  unfold parse_req_start_line
  simp only [if_neg hline, h0, h1, h2, hscan1, e1, hqm, e2, hscan2, e3, hp, hqs]
  simp

theorem slice_of_getD (m : Mem) (l : List Nat) :
    ∀ start, (∀ j, j < l.length → m (start + j) = l.getD j 0) → slice m start l.length = l := by
  induction l with
  | nil => intro start _; rfl
  | cons x l ih =>
    intro start h
    have h0 := h 0 (by simp)
    simp only [List.length_cons, slice]
    rw [ih (start + 1) (fun j hj => by
      have := h (j + 1) (by simpa using hj)
      have e : start + 1 + j = start + (j + 1) := by omega
      rw [e, this]; simp)]
    simpa using h0

theorem cstr_eq_self (l : List Nat) (h : ∀ b ∈ l, b ≠ 0) : cstr l = l := by
  rw [cstr, List.takeWhile_eq_self_iff]
  intro b hb
  simp [h b hb]

theorem mem_queryOf (ps : List Fdata) (b : Nat) (hb : b ∈ queryOf ps) :
    b = AMP ∨ b = EQS ∨ ∃ p ∈ ps, b ∈ p.name ∨ b ∈ p.value := by
  induction ps with
  | nil => simp [queryOf] at hb
  | cons p ps ih =>
    cases ps with
    | nil =>
      simp only [queryOf, paramToken, List.mem_append, List.mem_cons] at hb
      rcases hb with h | h | h
      · exact Or.inr (Or.inr ⟨p, by simp, Or.inl h⟩)
      · exact Or.inr (Or.inl h)
      · exact Or.inr (Or.inr ⟨p, by simp, Or.inr h⟩)
    | cons q ps =>
      simp only [queryOf, paramToken, List.mem_append, List.mem_cons] at hb
      rcases hb with (h | h | h) | h | h
      · exact Or.inr (Or.inr ⟨p, by simp, Or.inl h⟩)
      · exact Or.inr (Or.inl h)
      · exact Or.inr (Or.inr ⟨p, by simp, Or.inr h⟩)
      · exact Or.inl h
      · rcases ih h with h1 | h1 | ⟨r, hr, h1⟩
        · exact Or.inl h1
        · exact Or.inr (Or.inl h1)
        · exact Or.inr (Or.inr ⟨r, by simp [hr], h1⟩)

/-- A buffer that holds a request line holds a terminated line, and
`parse_req_start_line` hands the query string of the line to `parse_query`. -/
theorem parse_req_start_line_requestLine (fuel : Nat) (fresh : ReqData) (c : ClientState)
    (path q : List Nat)
    (hbuf : slice c.buf 0 (requestLine path q).length = requestLine path q)
    (hnum : ((requestLine path q).length : Int) ≤ c.num_bytes)
    (hpath : ∀ b ∈ path, b ≠ QMARK ∧ b ≠ SP) (hq : ∀ b ∈ q, b ≠ SP)
    (hfuel : (requestLine path q).length ≤ fuel) :
    parse_req_start_line fuel fresh c =
      match parse_query { fresh with method := some GET, path := some (cstr path) } (cstr q) with
      | .ok r => .ok (1, { c with reqData := some r })
      | .exit st => .exit st
      | .undef => .undef
      | .fuel => .fuel := by
  have hform : requestLine path q =
      (str "GET " ++ (path ++ (QMARK :: (q ++ [SP])))) ++ str "HTTP/1.1\r\n" := by
    have e : str " HTTP/1.1\r\n" = [SP] ++ str "HTTP/1.1\r\n" := by decide
    simp [requestLine, e]
  have hlen : (requestLine path q).length = 4 + path.length + 1 + q.length + 11 := by
    have e4 : (str "GET ").length = 4 := by decide
    have e11 : (str " HTTP/1.1\r\n").length = 11 := by decide
    simp only [requestLine, List.length_append, List.length_cons, e4, e11]
    omega
  have hbuf2 := hbuf
  rw [hform] at hbuf2
  obtain ⟨hhead, htail⟩ := slice_eq_append c.buf _ _ 0 hbuf2
  have hheadlen : (str "GET " ++ (path ++ (QMARK :: (q ++ [SP])))).length =
      4 + path.length + 1 + q.length + 1 := by
    have e4 : (str "GET ").length = 4 := by decide
    simp only [List.length_append, List.length_cons, List.length_nil, e4]
    omega
  have hT := slice_getD c.buf _ _ htail
  have hcr : c.buf (4 + path.length + 1 + q.length + 1 + 8) = CR := by
    have := hT 8 (by decide)
    rw [hheadlen, Nat.zero_add] at this
    rw [this]; decide
  have hlf : c.buf (4 + path.length + 1 + q.length + 1 + 8 + 1) = LF := by
    have := hT 9 (by decide)
    rw [hheadlen, Nat.zero_add] at this
    have e : 4 + path.length + 1 + q.length + 1 + 8 + 1 = 4 + path.length + 1 + q.length + 1 + 9 := by
      omega
    rw [e, this]; decide
  have hline : find_network_newline c.buf c.num_bytes ≠ -1 := by
    rw [find_network_newline]
    apply fnnLoop_ne c.buf _ 0 (4 + path.length + 1 + q.length + 1 + 8) (Nat.zero_le _) _ ⟨hcr, hlf⟩
    rw [hlen] at hnum
    omega
  exact parse_req_start_line_GET_query fuel fresh c path q hhead hpath hq hline
    (by rw [hlen] at hfuel; omega)

/-! ## C1: the request line of a GET request with parameters -/

/-- What `parse_req_start_line` stores for a buffered request line
`GET <path>?k1=v1&...&kn=vn HTTP/1.1\r\n` with `1 ≤ n ≤ 5` and without zero
bytes (path without `?` and space, names non-empty without `=`, `&`, space,
values without `&`, space): it returns `1` with method `GET`, the path and
the parameters in slots `0 .. n-1`; every slot from `n` on is left as it is
in the block that `malloc` returned. -/
theorem parse_req_start_line_GET_slots (fuel : Nat) (fresh : ReqData) (c : ClientState)
    (path : List Nat) (ps : List Fdata)
    (hne : ps ≠ []) (hlen : ps.length ≤ MAX_QUERY_PARAMS)
    (hpath : ∀ b ∈ path, b ≠ QMARK ∧ b ≠ SP ∧ b ≠ 0)
    (hnames : ∀ p ∈ ps, p.name ≠ [] ∧ ∀ b ∈ p.name, b ≠ EQS ∧ b ≠ AMP ∧ b ≠ SP ∧ b ≠ 0)
    (hvalues : ∀ p ∈ ps, ∀ b ∈ p.value, b ≠ AMP ∧ b ≠ SP ∧ b ≠ 0)
    (hbuf : slice c.buf 0 (requestLine path (queryOf ps)).length = requestLine path (queryOf ps))
    (hnum : ((requestLine path (queryOf ps)).length : Int) ≤ c.num_bytes)
    (hfuel : (requestLine path (queryOf ps)).length ≤ fuel) :
    ∃ r, parse_req_start_line fuel fresh c = .ok (1, { c with reqData := some r }) ∧
      r.method = some GET ∧ r.path = some path ∧
      (∀ i, i < ps.length → r.params i = ps[i]?) ∧
      (∀ i, ps.length ≤ i → r.params i = fresh.params i) := by
  have hq : ∀ b ∈ queryOf ps, b ≠ SP ∧ b ≠ 0 := by
    intro b hb
    rcases mem_queryOf ps b hb with h | h | ⟨p, hp, h | h⟩
    · subst h; decide
    · subst h; decide
    · exact ⟨((hnames p hp).2 b h).2.2.1, ((hnames p hp).2 b h).2.2.2⟩
    · exact ⟨(hvalues p hp b h).2.1, (hvalues p hp b h).2.2⟩
  have hamp : ∀ p ∈ ps, AMP ∉ paramToken p := by
    intro p hp hmem
    simp only [paramToken, List.mem_append, List.mem_cons] at hmem
    rcases hmem with h | h | h
    · exact ((hnames p hp).2 AMP h).2.1 rfl
    · exact absurd h (by decide)
    · exact (hvalues p hp AMP h).1 rfl
  have hname : ∀ p ∈ ps, EQS ∉ p.name ∧ p.name ≠ [] :=
    fun p hp => ⟨fun h => ((hnames p hp).2 EQS h).1 rfl, (hnames p hp).1⟩
  have hparse := parse_req_start_line_requestLine fuel fresh c path (queryOf ps) hbuf hnum
    (fun b hb => ⟨(hpath b hb).1, (hpath b hb).2.1⟩) (fun b hb => (hq b hb).1) hfuel
  rw [cstr_eq_self path (fun b hb => (hpath b hb).2.2),
    cstr_eq_self (queryOf ps) (fun b hb => (hq b hb).2),
    parse_query_queryOf _ ps hne hlen hamp hname] at hparse
  have hslot : ∀ i, i < ps.length →
      (storeTokens (ps.map paramToken) 0
        { fresh with method := some GET, path := some path }).params i = ps[i]? := by
    intro i hi
    rw [storeTokens_params, if_pos ⟨Nat.zero_le _, by simpa using hi⟩]
    have hg : (ps.map paramToken).getD (i - 0) [] = paramToken ps[i] := by
      simp [List.getD, hi]
    rw [hg, tokenParam_paramToken _ (hname _ (List.getElem_mem _)).1]
    simp [hi]
  refine ⟨_, hparse, ?_, ?_, hslot, ?_⟩
  · exact (storeTokens_method _ 0 _).1
  · exact (storeTokens_method _ 0 _).2
  · intro i hi
    rw [storeTokens_params, if_neg (fun hh => by have := hh.2; simp at this; omega)]

/-- C1 at the example request
`GET /image-filter?image=cat.bmp&filter=blur HTTP/1.1\r\n\r\n`, parsed into
a block that `malloc` hands out again after an earlier request with three
parameters: method, path and slots 0 and 1 are as the claim says, but slot 2
is never written and still holds `x=1`, so the parameter list that
`log_request`, `remove_client` and `image_filter_response` read up to the
first `NULL` name has the further parameter `x=1`.  The branch for a request
line without `?` sets all five slots to `NULL` on the same block. -/
theorem parse_req_start_line_GET_stale_slot :
    parsedView (parse_req_start_line 60 staleBlock
        (clientOf (requestLine (str "/image-filter") (queryOf catBlur) ++ str "\r\n"))) =
      some ⟨1, some GET, some (str "/image-filter"),
        [some ⟨str "image", str "cat.bmp"⟩, some ⟨str "filter", str "blur"⟩,
         some ⟨str "x", str "1"⟩, none, none],
        catBlur ++ [⟨str "x", str "1"⟩]⟩ ∧
    (parsedView (parse_req_start_line 60 staleBlock
        (clientOf (requestLine (str "/image-filter") (queryOf catBlur) ++ str "\r\n")))).map
        Parsed.logged ≠ some catBlur ∧
    parsedView (parse_req_start_line 60 staleBlock
        (clientOf (str "GET /main.html HTTP/1.1\r\n\r\n"))) =
      some ⟨1, some GET, some (str "/main.html"), [none, none, none, none, none], []⟩ := by
  refine ⟨by decide, by decide, by decide⟩

/-! ## C7 and C8: malformed query strings -/

/-- `parse_query` ends in `exit(1)` on a malformed token and on more than
five tokens. -/
theorem parse_query_exit (req : ReqData) (s : List Nat)
    (hbad : (∃ t ∈ tokens s, malformed t) ∨ MAX_QUERY_PARAMS < (tokens s).length) :
    parse_query req s = .exit 1 := by
  rw [parse_query]
  by_cases hnum : 1 + s.count AMP > MAX_QUERY_PARAMS
  · simp only [if_pos hnum]
  · simp only [if_neg hnum]
    rcases hbad with h | h
    · exact queryLoop_bad _ s 0 req (Nat.lt_succ_self _) h
    · have := length_tokens_le s
      omega

/-- The first `read` of `handle_client` when the peer has sent `data`, which
fits into the buffer. -/
theorem sockRead_whole (data : List Nat) (rest : Sock) (hlen : data.length ≤ MAXLINE - 1) :
    sockRead (some data :: rest) ((MAXLINE : Int) - 1) = ((data.length : Int), data, rest) := by
  have h1 : ¬ ((MAXLINE : Int) - 1 < 0) := by simp [MAXLINE]
  have h2 : ((MAXLINE : Int) - 1).toNat = MAXLINE - 1 := by simp [MAXLINE]
  simp only [sockRead, if_neg h1, h2]
  rw [List.take_of_length_le hlen, if_neg (by omega)]

theorem slice_after_read (buf : Mem) (data : List Nat) :
    slice (setByte (writeAt buf 0 data) (data.length : Int) 0) 0 data.length = data := by
  apply slice_of_getD
  intro j hj
  have h1 : ¬ ((j : Int) = (data.length : Int)) := by omega
  have h2 : (0 : Int) ≤ (j : Int) - 0 ∧ (j : Int) - 0 < (data.length : Int) := by omega
  simp only [Nat.zero_add, setByte, writeAt, if_neg h1, if_pos h2]
  simp

/-- A malformed query string in the request line makes `handle_client` end
in `exit(1)` in the process that called it, whatever `fork` would return. -/
theorem handle_client_exit_of_bad_query (fuel : Nat) (fresh : ReqData) (h : Header)
    (forkRet : Int) (client : ClientState) (path q more : List Nat) (rest : Sock)
    (hlen : (requestLine path q ++ more).length ≤ MAXLINE - 1)
    (hpath : ∀ b ∈ path, b ≠ QMARK ∧ b ≠ SP) (hq : ∀ b ∈ q, b ≠ SP ∧ b ≠ 0)
    (hbad : (∃ t ∈ tokens q, malformed t) ∨ MAX_QUERY_PARAMS < (tokens q).length)
    (hfuel : (requestLine path q).length ≤ fuel) :
    handle_client fuel fresh h forkRet client (some (requestLine path q ++ more) :: rest) =
      .exited 1 := by
  have hpos : 0 < (requestLine path q ++ more).length := by
    simp [requestLine, str]
  have hne : ¬ (((requestLine path q ++ more).length : Int) = 0) := by omega
  have hgt : ((requestLine path q ++ more).length : Int) > 0 := by omega
  have hparse := parse_req_start_line_requestLine fuel fresh
    { client with num_bytes := ((requestLine path q ++ more).length : Int),
                  buf := setByte (writeAt client.buf 0 (requestLine path q ++ more))
                    ((requestLine path q ++ more).length : Int) 0 }
    path q (slice_eq_append _ _ _ 0 (slice_after_read client.buf _)).1
    (by simp only [List.length_append]; omega) hpath (fun b hb => (hq b hb).1) hfuel
  rw [cstr_eq_self q (fun b hb => (hq b hb).2), parse_query_exit _ q hbad] at hparse
  unfold handle_client
  simp only [sockRead_whole _ rest hlen, if_neg hne, if_pos hgt, hparse]

/-- C7: a query string with a malformed token (no `=`, or `=` first) among
its `&`-separated non-empty tokens, or with more than five tokens, makes
`parse_query` end in `exit(1)`; when it arrives in a request line,
`handle_client` ends in that exit and reaches no worker, so no response
function has run.  Every query string that `parse_query` accepts has at most
five tokens, all well-formed, and only slots `0 .. 4` are written. -/
theorem parse_query_rejects_malformed (req : ReqData) (s : List Nat) :
    (((∃ t ∈ tokens s, malformed t) ∨ MAX_QUERY_PARAMS < (tokens s).length) →
      parse_query req s = .exit 1 ∧
      ∀ (fuel : Nat) (fresh : ReqData) (h : Header) (forkRet : Int) (client : ClientState)
        (path more : List Nat) (rest : Sock),
        (requestLine path s ++ more).length ≤ MAXLINE - 1 →
        (∀ b ∈ path, b ≠ QMARK ∧ b ≠ SP) → (∀ b ∈ s, b ≠ SP ∧ b ≠ 0) →
        (requestLine path s).length ≤ fuel →
        (handle_client fuel fresh h forkRet client
            (some (requestLine path s ++ more) :: rest) = .exited 1 ∧
          ∀ r c sk, handle_client fuel fresh h forkRet client
            (some (requestLine path s ++ more) :: rest) ≠ .worker r c sk)) ∧
    (∀ r, parse_query req s = .ok r →
      (tokens s).length ≤ MAX_QUERY_PARAMS ∧ (∀ t ∈ tokens s, ¬ malformed t) ∧
      (∀ j, j < (tokens s).length → r.params j = some (tokenParam ((tokens s).getD j []))) ∧
      (∀ j, MAX_QUERY_PARAMS ≤ j → r.params j = req.params j)) := by
  constructor
  · intro hbad
    refine ⟨parse_query_exit req s hbad, ?_⟩
    intro fuel fresh h forkRet client path more rest hlen hpath hq hfuel
    have hx := handle_client_exit_of_bad_query fuel fresh h forkRet client path s more rest
      hlen hpath hq hbad hfuel
    refine ⟨hx, ?_⟩
    intro r c sk hw
    rw [hx] at hw
    cases hw
  · intro r hr
    have hlen : (tokens s).length ≤ MAX_QUERY_PARAMS := by
      by_contra hc
      rw [parse_query_exit req s (Or.inr (by omega))] at hr
      cases hr
    have hgood : ∀ t ∈ tokens s, ¬ malformed t := by
      intro t ht hm
      rw [parse_query_exit req s (Or.inl ⟨t, ht, hm⟩)] at hr
      cases hr
    have hnum : ¬ (1 + s.count AMP > MAX_QUERY_PARAMS) := by
      intro hc
      rw [parse_query] at hr
      simp only [if_pos hc] at hr
      cases hr
    rw [parse_query] at hr
    simp only [if_neg hnum] at hr
    rw [queryLoop_ok _ s 0 req (Nat.lt_succ_self _) hgood] at hr
    have hreq : r = storeTokens (tokens s) 0 req := by
      injection hr with hr
      exact hr.symm
    refine ⟨hlen, hgood, ?_, ?_⟩
    · intro j hj
      rw [hreq, storeTokens_params, if_pos ⟨Nat.zero_le _, by simpa using hj⟩]
      simp
    · intro j hj
      rw [hreq, storeTokens_params, if_neg (fun hh => by have := hh.2; simp at this; omega)]

/-- Witness of C7: the query string `a&b=c`, whose first token has no `=`. -/
theorem parse_query_rejects_malformed_witness :
    ((∃ t ∈ tokens (str "a&b=c"), malformed t) ∨
        MAX_QUERY_PARAMS < (tokens (str "a&b=c")).length) ∧
    parse_query nullReq (str "a&b=c") = .exit 1 :=
  ⟨Or.inl ⟨str "a", by decide, by decide⟩,
   ((parse_query_rejects_malformed nullReq (str "a&b=c")).1
      (Or.inl ⟨str "a", by decide, by decide⟩)).1⟩

/-- C8 at the request `GET /image-filter?a&b=c HTTP/1.1\r\n\r\n`, read in
the server process: `parse_query` calls `exit(1)` inside `handle_client`
before `fork()`, so the call ends in `exit(1)` in the process that made it,
both where `fork` would return the pid of a child (here `1`) and where it
would return `0`; it neither returns nor becomes a worker.  A well-formed
request with the wrong parameter, `GET /image-filter?x=1`, makes
`handle_client` return `1` in the server, its error being answered by the
worker. -/
theorem handle_client_malformed_query_exits_server :
    serverExit (handle_client 60 nullReq exampleHeader 1 (clientOf [])
      [some (requestLine (str "/image-filter") (str "a&b=c") ++ str "\r\n")]) = some 1 ∧
    serverExit (handle_client 60 nullReq exampleHeader 0 (clientOf [])
      [some (requestLine (str "/image-filter") (str "a&b=c") ++ str "\r\n")]) = some 1 ∧
    returnedCode (handle_client 60 nullReq exampleHeader 1 (clientOf [])
      [some (requestLine (str "/image-filter") (str "a&b=c") ++ str "\r\n")]) = none ∧
    inWorker (handle_client 60 nullReq exampleHeader 0 (clientOf [])
      [some (requestLine (str "/image-filter") (str "a&b=c") ++ str "\r\n")]) = false ∧
    returnedCode (handle_client 60 nullReq exampleHeader 1 (clientOf [])
      [some (requestLine (str "/image-filter") (str "x=1") ++ str "\r\n")]) = some 1 ∧
    inWorker (handle_client 60 nullReq exampleHeader 0 (clientOf [])
      [some (requestLine (str "/image-filter") (str "x=1") ++ str "\r\n")]) = true := by
  refine ⟨by decide, by decide, by decide, by decide, by decide, by decide⟩

/-! ## C3 and C4: validation in `image_filter_response` -/

/-- With a `NULL` name at slot `k` and more than `k` units of fuel the scan
of the names ends at the first `NULL` name. -/
theorem nameScan_spec (params : Nat → Option Fdata) (k : Nat) (hk : params k = none) :
    ∀ (fuel i : Nat), i ≤ k → k < i + fuel →
      ∃ e, nameScan params fuel i = some e ∧ i ≤ e ∧ e ≤ k ∧ params e = none ∧
        ∀ j, i ≤ j → j < e → params j ≠ none := by
  intro fuel
  induction fuel with
  | zero => intro i h1 h2; omega
  | succ n ih =>
    intro i h1 h2
    cases hp : params i with
    | none =>
      exact ⟨i, by simp [nameScan, hp], Nat.le_refl _, h1, hp, fun j hj1 hj2 => by omega⟩
    | some p =>
      have hik : i ≠ k := fun h => by rw [h, hk] at hp; cases hp
      obtain ⟨e, he, h3, h4, h5, h6⟩ := ih (i + 1) (by omega) (by omega)
      refine ⟨e, by simp [nameScan, hp, he], by omega, h4, h5, ?_⟩
      intro j hj1 hj2
      by_cases hji : j = i
      · subst hji; rw [hp]; simp
      · exact h6 j (by omega) hj2

/-- C3 at the request `image=cat.bmp&filter=..` when `filters/..` is a
directory: the value contains no `/`, `access(X_OK)` succeeds on the
directory, so no validation of the code fails although `filters/..` is no
executable file.  No 500 response is sent: the image header of the 200
response goes out, `execl` is called and fails, and the worker calls
`exit(1)`.  For a filter name without an entry, `filter=none`, the same
check sends the 500 response "doesn't refer to an executable file", and for
`filter=blur` the filter runs. -/
theorem image_filter_response_directory_filter :
    SLASH ∉ str ".." ∧ SLASH ∉ str "cat.bmp" ∧
    accessOk dirFS (str "filters/..") .x_ok = true ∧
    execlOk dirFS (str "filters/..") = false ∧
    (image_filter_response 3 callsOk dirFS
      (filterRequest [⟨str "image", str "cat.bmp"⟩, ⟨str "filter", str ".."⟩])).sent =
      [.image_header] ∧
    (image_filter_response 3 callsOk dirFS
      (filterRequest [⟨str "image", str "cat.bmp"⟩, ⟨str "filter", str ".."⟩])).calls =
      [.access (str "filters/..") .x_ok, .access (str "images/cat.bmp") .r_ok,
       .fopen_read (str "images/cat.bmp"), .execl (str "filters/..")] ∧
    (image_filter_response 3 callsOk dirFS
      (filterRequest [⟨str "image", str "cat.bmp"⟩, ⟨str "filter", str ".."⟩])).ending =
      .exited 1 ∧
    (image_filter_response 3 callsOk dirFS
      (filterRequest [⟨str "image", str "cat.bmp"⟩, ⟨str "filter", str "none"⟩])).sent =
      [.internal_server_error .filter_not_executable] ∧
    (image_filter_response 3 callsOk dirFS (filterRequest catBlur)).ending =
      .replaced (str "filters/blur") (str "images/cat.bmp") := by
  refine ⟨by decide, by decide, by decide, by decide, by decide, by decide, by decide,
    by decide, by decide⟩

/-- C4: a request that passes the check of the parameter names (slots 0 and
1 present, named `image` and `filter`, the scan of the names having ended)
and whose image or filter value contains `/` gets the 500 response and the
worker calls `exit(1)`; no `access`, `fopen` or `execl` call has been made
and the file system is unchanged. -/
theorem image_filter_response_slash_no_access (fuel : Nat) (io : CallResults) (fs : FS)
    (req : ReqData) (k : Nat) (p0 p1 : Fdata)
    (hk : req.params k = none) (hfuel : k < fuel)
    (h0 : req.params 0 = some p0) (h1 : req.params 1 = some p1)
    (hn0 : p0.name = str "image") (hn1 : p1.name = str "filter")
    (hs : SLASH ∈ p0.value ∨ SLASH ∈ p1.value) :
    (image_filter_response fuel io fs req).sent = [.internal_server_error .contains_slash] ∧
    (image_filter_response fuel io fs req).calls = [] ∧
    (image_filter_response fuel io fs req).ending = .exited 1 ∧
    (image_filter_response fuel io fs req).fs = fs := by
  obtain ⟨e, he, _, hek, hnone, hsome⟩ :=
    nameScan_spec req.params k hk fuel 0 (Nat.zero_le _) (by omega)
  have h2 : ¬ e < 2 := by
    intro hlt
    have : e = 0 ∨ e = 1 := by omega
    rcases this with h | h <;> subst h
    · rw [hnone] at h0; cases h0
    · rw [hnone] at h1; cases h1
  have hn : ¬ (p0.name ≠ str "image" ∨ p1.name ≠ str "filter") := by
    rintro (h | h)
    · exact h hn0
    · exact h hn1
  have hrun : image_filter_response fuel io fs req =
      ⟨[.internal_server_error .contains_slash], [], fs, .exited 1⟩ := by
    simp only [image_filter_response, he, h0, h1, if_neg h2, if_neg hn, if_pos hs]
  rw [hrun]
  exact ⟨rfl, rfl, rfl, rfl⟩

/-- Witness of C4: `image=cat.bmp&filter=../bin/sh`. -/
theorem image_filter_response_slash_no_access_witness :
    (filterRequest [⟨str "image", str "cat.bmp"⟩, ⟨str "filter", str "../bin/sh"⟩]).params 2
      = none ∧
    (SLASH ∈ str "cat.bmp" ∨ SLASH ∈ str "../bin/sh") ∧
    (image_filter_response 3 callsOk emptyFS
      (filterRequest [⟨str "image", str "cat.bmp"⟩, ⟨str "filter", str "../bin/sh"⟩])).sent
      = [.internal_server_error .contains_slash] ∧
    (image_filter_response 3 callsOk emptyFS
      (filterRequest [⟨str "image", str "cat.bmp"⟩, ⟨str "filter", str "../bin/sh"⟩])).calls
      = [] ∧
    (image_filter_response 3 callsOk emptyFS
      (filterRequest [⟨str "image", str "cat.bmp"⟩, ⟨str "filter", str "../bin/sh"⟩])).ending
      = .exited 1 ∧
    (image_filter_response 3 callsOk emptyFS
      (filterRequest [⟨str "image", str "cat.bmp"⟩, ⟨str "filter", str "../bin/sh"⟩])).fs
      = emptyFS :=
  ⟨rfl, Or.inr (by decide),
   image_filter_response_slash_no_access 3 callsOk emptyFS
     (filterRequest [⟨str "image", str "cat.bmp"⟩, ⟨str "filter", str "../bin/sh"⟩]) 2
     ⟨str "image", str "cat.bmp"⟩ ⟨str "filter", str "../bin/sh"⟩
     rfl (by decide) rfl rfl rfl rfl (Or.inr (by decide))⟩

/-! ## C5 and C6: the upload -/

/-- C5 at two inputs with declared size `S = 10`.  First: the buffer holds the
content-type line and the blank line, and the first `read` delivers the ten
payload bytes together with the twenty bytes of the closing boundary; the
first `write` is not truncated and thirty bytes are written.  Second: six
payload bytes are already buffered and the `read` delivers the remaining
four before the peer closes; four bytes are written. -/
theorem save_file_upload_not_declared_size :
    file_size_at (memOf bmp10) = 10 ∧ bmp10.length = 10 ∧
    (writtenOf (save_file_upload 5 (clientOf (str "Content-Type: image/bmp\r\n\r\n"))
        [some (bmp10 ++ uploadFooter)])).map List.length = some 30 ∧
    (writtenOf (save_file_upload 5
        (clientOf (str "Content-Type: image/bmp\r\n\r\n" ++ bmp10.take 6))
        [some (bmp10.drop 6)])).map List.length = some 4 := by
  refine ⟨by decide, by decide, by decide, by decide⟩

/-- C6: when the destination `images/<filename>` extracted from the upload
request exists, `image_upload_response` sends the 400 response and the worker
calls `exit(1)`; the only call on the path is the existence check `access`
(no `fopen`, no `write`) and the file system is unchanged. -/
theorem image_upload_response_existing_file (fuel : Nat) (h : Header) (fs : FS)
    (client : ClientState) (s : Sock) (path : List Nat)
    (hpath : upload_path fuel h client s = some path)
    (hex : (fs path).isSome = true) :
    (image_upload_response fuel h fs client s).sent = [.bad_request .file_exists] ∧
    (image_upload_response fuel h fs client s).ending = .exited 1 ∧
    (image_upload_response fuel h fs client s).calls = [.access path .f_ok] ∧
    (image_upload_response fuel h fs client s).fs = fs := by
  unfold upload_path at hpath
  unfold image_upload_response
  cases hb : get_boundary h.POST_BOUNDARY_HEADER fuel client s with
  | exit st => rw [hb] at hpath; cases hpath
  | undef => rw [hb] at hpath; cases hpath
  | fuel => rw [hb] at hpath; cases hpath
  | ok r =>
    obtain ⟨b, c1, s1⟩ := r
    cases b with
    | none => rw [hb] at hpath; cases hpath
    | some boundary =>
      rw [hb] at hpath
      simp only at hpath ⊢
      cases hf : get_bitmap_filename fuel boundary c1 s1 with
      | exit st => rw [hf] at hpath; cases hpath
      | undef => rw [hf] at hpath; cases hpath
      | fuel => rw [hf] at hpath; cases hpath
      | ok r2 =>
        obtain ⟨f, c2, s2⟩ := r2
        cases f with
        | none => rw [hf] at hpath; cases hpath
        | some filename =>
          rw [hf] at hpath
          simp only [Option.some.injEq] at hpath
          subst hpath
          have hacc : accessOk fs (IMAGE_DIR ++ filename) .f_ok = true := by
            cases hfile : fs (IMAGE_DIR ++ filename) with
            | none => rw [hfile] at hex; cases hex
            | some file => simp [accessOk, hfile]
          simp [hacc]

/-- Witness of C6: the example upload of `dog.bmp` while `images/dog.bmp`
exists. -/
theorem image_upload_response_existing_file_witness :
    upload_path 20 exampleHeader (clientOf uploadLines) [some (bmp10 ++ uploadFooter)]
      = some (str "images/dog.bmp") ∧
    (dogFS (str "images/dog.bmp")).isSome = true ∧
    (image_upload_response 20 exampleHeader dogFS (clientOf uploadLines)
      [some (bmp10 ++ uploadFooter)]).sent = [.bad_request .file_exists] ∧
    (image_upload_response 20 exampleHeader dogFS (clientOf uploadLines)
      [some (bmp10 ++ uploadFooter)]).ending = .exited 1 ∧
    (image_upload_response 20 exampleHeader dogFS (clientOf uploadLines)
      [some (bmp10 ++ uploadFooter)]).calls = [.access (str "images/dog.bmp") .f_ok] ∧
    (image_upload_response 20 exampleHeader dogFS (clientOf uploadLines)
      [some (bmp10 ++ uploadFooter)]).fs = dogFS :=
  ⟨by decide, by decide,
   image_upload_response_existing_file 20 exampleHeader dogFS (clientOf uploadLines)
     [some (bmp10 ++ uploadFooter)] (str "images/dog.bmp") (by decide) (by decide)⟩

/-! ## C11: the bound on `num_bytes` -/

/-- A `read` with a non-negative count returns at most that count. -/
theorem sockRead_le (s : Sock) (count : Int) (hc : 0 ≤ count) : (sockRead s count).1 ≤ count := by
  cases s with
  | nil => simpa [sockRead] using hc
  | cons x rest =>
    cases x with
    | none => simp [sockRead]; omega
    | some chunk =>
      have h1 : ¬ count < 0 := by omega
      simp only [sockRead, if_neg h1, List.length_take]
      omega

/-- The search returns `-1` or the end of a pair that starts inside the
searched range. -/
theorem fnnLoop_cases (buf : Mem) :
    ∀ (todo k : Nat), fnnLoop buf todo k = -1 ∨
      ∃ i, k ≤ i ∧ i < k + todo ∧ (buf i = CR ∧ buf (i + 1) = LF) ∧
        fnnLoop buf todo k = ((i + 2 : Nat) : Int) := by
  intro todo
  induction todo with
  | zero => intro k; exact Or.inl rfl
  | succ n ih =>
    intro k
    by_cases hp : buf k = CR ∧ buf (k + 1) = LF
    · exact Or.inr ⟨k, Nat.le_refl _, by omega, hp, by simp [fnnLoop, hp]⟩
    · rw [fnnLoop, if_neg hp]
      rcases ih (k + 1) with h | ⟨i, h1, h2, h3, h4⟩
      · exact Or.inl h
      · exact Or.inr ⟨i, by omega, by omega, h3, h4⟩

/-- `parse_req_start_line` changes neither the buffer nor `num_bytes`. -/
theorem parse_req_start_line_keeps (fuel : Nat) (fresh : ReqData) (c c2 : ClientState)
    (ret : Int) (h : parse_req_start_line fuel fresh c = .ok (ret, c2)) :
    c2.num_bytes = c.num_bytes ∧ c2.buf = c.buf ∧ c2.sock = c.sock := by
  unfold parse_req_start_line at h
  simp only at h
  repeat' split at h
  all_goals cases h
  all_goals exact ⟨rfl, rfl, rfl⟩

theorem after_fork_client (h : Header) (forkRet : Int) (c c1 : ClientState) (s : Sock)
    (hc : handledClient (after_fork h forkRet c s) = some c1) : c1 = c := by
  unfold after_fork at hc
  repeat' split at hc
  all_goals simp [handledClient] at hc
  all_goals exact hc.symm

theorem handle_client_num_bytes (fuel : Nat) (fresh : ReqData) (h : Header) (forkRet : Int)
    (client c1 : ClientState) (s : Sock)
    (hb : client.num_bytes ≤ (MAXLINE : Int) - 1)
    (hc : handledClient (handle_client fuel fresh h forkRet client s) = some c1) :
    c1.num_bytes ≤ (MAXLINE : Int) - 1 := by
  have hle := sockRead_le s ((MAXLINE : Int) - 1) (by simp [MAXLINE])
  unfold handle_client at hc
  simp only at hc
  split at hc
  · simp [handledClient] at hc
    rw [← hc]; exact hb
  · split at hc
    · split at hc
      · rename_i ret c2 hparse
        have hk := parse_req_start_line_keeps _ _ _ _ _ hparse
        have := after_fork_client _ _ _ _ _ hc
        rw [this, hk.1]
        exact hle
      · simp [handledClient] at hc
      · simp [handledClient] at hc
      · simp [handledClient] at hc
    · simp [handledClient] at hc
      rw [← hc]; exact hb

theorem read_from_client_num_bytes (client : ClientState) (s : Sock)
    (hb : client.num_bytes ≤ (MAXLINE : Int) - 1) :
    (read_from_client client s).2.1.num_bytes ≤ (MAXLINE : Int) - 1 := by
  unfold read_from_client
  split
  · have hle := sockRead_le s ((MAXLINE : Int) - 1) (by simp [MAXLINE])
    simp only
    split
    · exact hb
    · exact hle
  · have hle := sockRead_le s ((MAXLINE : Int) - client.num_bytes - 1) (by omega)
    simp only
    split
    · exact hb
    · simp only
      omega

theorem remove_buffered_line_num_bytes (client c1 : ClientState)
    (hb : client.num_bytes ≤ (MAXLINE : Int) - 1)
    (hr : remove_buffered_line client = .ok c1) :
    c1.num_bytes ≤ (MAXLINE : Int) - 1 := by
  have hfind : find_network_newline client.buf client.num_bytes = -1 ∨
      2 ≤ find_network_newline client.buf client.num_bytes := by
    rcases fnnLoop_cases client.buf client.num_bytes.toNat 0 with h | ⟨i, _, _, _, h⟩
    · exact Or.inl h
    · right; rw [find_network_newline, h]; omega
  unfold remove_buffered_line at hr
  simp only at hr
  split at hr
  · cases hr; exact hb
  · rename_i hne
    split at hr
    · cases hr
    · cases hr
      simp only
      rcases hfind with h | h
      · exact absurd h hne
      · omega

theorem remove_buffered_line_returns (client : ClientState)
    (ht : client.buf client.num_bytes.toNat ≠ LF) :
    ∃ c1, remove_buffered_line client = .ok c1 := by
  unfold remove_buffered_line
  simp only
  split
  · exact ⟨_, rfl⟩
  · rename_i hne
    rcases fnnLoop_cases client.buf client.num_bytes.toNat 0 with h | ⟨i, _, h2, h3, h⟩
    · exact absurd h hne
    · have hin : i + 1 ≠ client.num_bytes.toNat := by
        intro he
        rw [he] at h3
        exact ht h3.2
      have hlen : ¬ (client.num_bytes - find_network_newline client.buf client.num_bytes < 0) := by
        rw [find_network_newline, h]
        omega
      rw [if_neg hlen]
      exact ⟨_, rfl⟩

/-- C11: if `num_bytes ≤ MAXLINE - 1` holds before, it holds after the read
in `handle_client` (in every ending that leaves a client state), after
`read_from_client` (both branches, every socket content) and after
`remove_buffered_line`; `remove_buffered_line` returns whenever the byte at
`buf[num_bytes]` is not a line feed, in particular when it is the
terminator that the reads store there. -/
theorem num_bytes_bound_invariant :
    (∀ (fuel : Nat) (fresh : ReqData) (h : Header) (forkRet : Int) (client c1 : ClientState)
        (s : Sock), client.num_bytes ≤ (MAXLINE : Int) - 1 →
      handledClient (handle_client fuel fresh h forkRet client s) = some c1 →
      c1.num_bytes ≤ (MAXLINE : Int) - 1) ∧
    (∀ (client : ClientState) (s : Sock), client.num_bytes ≤ (MAXLINE : Int) - 1 →
      (read_from_client client s).2.1.num_bytes ≤ (MAXLINE : Int) - 1) ∧
    (∀ (client : ClientState), client.num_bytes ≤ (MAXLINE : Int) - 1 →
      (∀ c1, remove_buffered_line client = .ok c1 → c1.num_bytes ≤ (MAXLINE : Int) - 1) ∧
      (client.buf client.num_bytes.toNat ≠ LF → ∃ c1, remove_buffered_line client = .ok c1)) :=
  ⟨fun fuel fresh h forkRet client c1 s hb hc =>
      handle_client_num_bytes fuel fresh h forkRet client c1 s hb hc,
   fun client s hb => read_from_client_num_bytes client s hb,
   fun client hb =>
     ⟨fun c1 hr => remove_buffered_line_num_bytes client c1 hb hr,
      fun ht => remove_buffered_line_returns client ht⟩⟩

/-- Witness of C11: a full buffer (1023 bytes) that `read_from_client`
overwrites with a chunk of 2000 bytes, and a buffer of three bytes to which
it appends. -/
theorem num_bytes_bound_invariant_witness :
    ((⟨4, memOf [], 1023, none⟩ : ClientState).num_bytes ≤ (MAXLINE : Int) - 1 ∧
      (read_from_client ⟨4, memOf [], 1023, none⟩ [some (List.replicate 2000 65)]).2.1.num_bytes
        ≤ (MAXLINE : Int) - 1) ∧
    ((clientOf (str "abc")).num_bytes ≤ (MAXLINE : Int) - 1 ∧
      (read_from_client (clientOf (str "abc")) [some (List.replicate 2000 65)]).2.1.num_bytes
        ≤ (MAXLINE : Int) - 1) :=
  ⟨⟨by decide, num_bytes_bound_invariant.2.1 ⟨4, memOf [], 1023, none⟩
      [some (List.replicate 2000 65)] (by decide)⟩,
   ⟨by decide, num_bytes_bound_invariant.2.1 (clientOf (str "abc"))
      [some (List.replicate 2000 65)] (by decide)⟩⟩

/-! ## C12 and C13: incomplete lines and other methods -/

/-- C12 at the input where the first `read` delivers `GET /image-fil`, fourteen
bytes without a CRLF: no complete line is buffered, yet `handle_client` goes
on to `fork()`; in the server process (`fork` returns the pid of the child,
here `1`) it returns `1`, not `0`, and in the process where `fork` returns
`0` it runs as the child, which reads `client->reqData`, still `NULL`. -/
theorem handle_client_forks_without_line :
    find_network_newline (memOf (str "GET /image-fil")) 14 = -1 ∧
    returnedCode (handle_client 60 nullReq exampleHeader 1 (clientOf [])
      [some (str "GET /image-fil")]) = some 1 ∧
    inWorker (handle_client 60 nullReq exampleHeader 0 (clientOf [])
      [some (str "GET /image-fil")]) = true := by
  refine ⟨by decide, by decide, by decide⟩

/-- C13 at the first lines `PUT /x HTTP/1.1\r\n` and `HEAD / HTTP/1.1\r\n`:
neither branch of `parse_req_start_line` runs, the call returns `1` and the
stored request is the block as `malloc` returned it, whatever it holds; for
a block of zero bytes `method` and `path` are `NULL`. -/
theorem parse_req_start_line_other_method :
    (∀ fresh : ReqData,
      parse_req_start_line 60 fresh (clientOf (str "PUT /x HTTP/1.1\r\n")) =
        .ok (1, { clientOf (str "PUT /x HTTP/1.1\r\n") with reqData := some fresh })) ∧
    (∀ fresh : ReqData,
      parse_req_start_line 60 fresh (clientOf (str "HEAD / HTTP/1.1\r\n")) =
        .ok (1, { clientOf (str "HEAD / HTTP/1.1\r\n") with reqData := some fresh })) ∧
    parsedView (parse_req_start_line 60 nullReq (clientOf (str "PUT /x HTTP/1.1\r\n"))) =
      some ⟨1, none, none, [none, none, none, none, none], []⟩ := by
  refine ⟨fun fresh => rfl, fun fresh => rfl, by decide⟩

/-! ## C14: further parameters of the image filter -/

/-- C14 fails as stated: for `image=cat.bmp&filter=blur&x=1`, with
`filters/blur` executable and `images/cat.bmp` readable, the parameter list
has a third entry, yet the request is not rejected: the image header is sent
and the filter is run. -/
theorem image_filter_response_third_param_counterexample :
    paramList (filterRequest (catBlur ++ [⟨str "x", str "1"⟩])).params MAX_QUERY_PARAMS 0 ≠
      catBlur ∧
    (image_filter_response 4 callsOk filterFS (filterRequest (catBlur ++ [⟨str "x", str "1"⟩]))).sent =
      [.image_header] ∧
    (image_filter_response 4 callsOk filterFS (filterRequest (catBlur ++ [⟨str "x", str "1"⟩]))).ending =
      .replaced (str "filters/blur") (str "images/cat.bmp") := by
  refine ⟨by decide, by decide, by decide⟩

/-- C14 (amended): the handler looks at the first two parameters only.  For
every request whose scan of the names ends: when slots 0 and 1 do not hold
parameters named `image` and `filter` in that order (a slot is missing or a
name differs), the 500 response is sent and the worker calls `exit(1)`
without any file-system call; when both slots are present, the run is the
one of the request that has just these two parameters, so further
parameters are ignored. -/
theorem image_filter_response_first_two_only (fuel : Nat) (io : CallResults) (fs : FS)
    (req : ReqData) (k : Nat)
    (hk : req.params k = none) (hfuel : k < fuel) :
    (¬ (∃ p0 p1, req.params 0 = some p0 ∧ req.params 1 = some p1 ∧
          p0.name = str "image" ∧ p1.name = str "filter") →
      (image_filter_response fuel io fs req).sent = [.internal_server_error .params_missing] ∧
      (image_filter_response fuel io fs req).ending = .exited 1 ∧
      (image_filter_response fuel io fs req).calls = []) ∧
    (∀ p0 p1, req.params 0 = some p0 → req.params 1 = some p1 →
      image_filter_response fuel io fs req =
        image_filter_response 3 io fs (filterRequest [p0, p1])) := by
  obtain ⟨e, he, _, hek, hnone, hsome⟩ :=
    nameScan_spec req.params k hk fuel 0 (Nat.zero_le _) (by omega)
  constructor
  · intro hnot
    by_cases h2 : e < 2
    · have hrun : image_filter_response fuel io fs req =
          ⟨[.internal_server_error .params_missing], [], fs, .exited 1⟩ := by
        simp [image_filter_response, he, h2]
      rw [hrun]
      exact ⟨rfl, rfl, rfl⟩
    · have hs0 := hsome 0 (Nat.le_refl _) (by omega)
      have hs1 := hsome 1 (by omega) (by omega)
      cases h0 : req.params 0 with
      | none => exact absurd h0 hs0
      | some p0 =>
        cases h1 : req.params 1 with
        | none => exact absurd h1 hs1
        | some p1 =>
          have hn : p0.name ≠ str "image" ∨ p1.name ≠ str "filter" := by
            by_contra hc
            refine hnot ⟨p0, p1, h0, h1, ?_, ?_⟩
            · by_contra hx; exact hc (Or.inl hx)
            · by_contra hx; exact hc (Or.inr hx)
          have hrun : image_filter_response fuel io fs req =
              ⟨[.internal_server_error .params_missing], [], fs, .exited 1⟩ := by
            simp only [image_filter_response, he, h0, h1, if_neg h2, if_pos hn]
          rw [hrun]
          exact ⟨rfl, rfl, rfl⟩
  · intro p0 p1 h0 h1
    have h2 : ¬ e < 2 := by
      intro hlt
      have : e = 0 ∨ e = 1 := by omega
      rcases this with h | h <;> subst h
      · rw [hnone] at h0; cases h0
      · rw [hnone] at h1; cases h1
    have hscan : nameScan (filterRequest [p0, p1]).params 3 0 = some 2 := rfl
    have g0 : (filterRequest [p0, p1]).params 0 = some p0 := rfl
    have g1 : (filterRequest [p0, p1]).params 1 = some p1 := rfl
    have h22 : ¬ (2 < 2) := by omega
    simp only [image_filter_response, he, h0, h1, if_neg h2, hscan, g0, g1, if_neg h22]

/-- Witness of C14 (amended): the swapped request is rejected. -/
theorem image_filter_response_first_two_only_witness :
    (filterRequest blurCat).params 2 = none ∧
    (image_filter_response 3 callsOk filterFS (filterRequest blurCat)).sent =
      [.internal_server_error .params_missing] ∧
    (image_filter_response 3 callsOk filterFS (filterRequest blurCat)).ending = .exited 1 ∧
    (image_filter_response 3 callsOk filterFS (filterRequest blurCat)).calls = [] :=
  ⟨rfl,
   (image_filter_response_first_two_only 3 callsOk filterFS (filterRequest blurCat) 2 rfl
      (by decide)).1
     (by
       rintro ⟨p0, p1, h0, _, hn, _⟩
       have e : p0 = ⟨str "filter", str "blur"⟩ := by
         have : some (⟨str "filter", str "blur"⟩ : Fdata) = some p0 := h0
         injection this with this
         exact this.symm
       rw [e] at hn
       exact absurd hn (by decide))⟩

/-! ## C15: registration of a new connection -/

theorem registerLoop_no_free (clients : Nat → ClientState) (fd : Int) :
    ∀ (todo i : Nat), (∀ j, i ≤ j → j < i + todo → ¬ (clients j).sock < 0) →
      registerLoop clients fd todo i = clients := by
  intro todo
  induction todo with
  | zero => intro i _; rfl
  | succ n ih =>
    intro i h
    rw [registerLoop, if_neg (h i (Nat.le_refl _) (by omega))]
    exact ih (i + 1) (fun j h1 h2 => h j (by omega) (by omega))

theorem registerLoop_first_free (clients : Nat → ClientState) (fd : Int) :
    ∀ (todo i k : Nat), i ≤ k → k < i + todo → (clients k).sock < 0 →
      (∀ j, i ≤ j → j < k → ¬ (clients j).sock < 0) →
      registerLoop clients fd todo i =
        fun j => if j = k then { clients k with sock := fd } else clients j := by
  intro todo
  induction todo with
  | zero => intro i k h1 h2; omega
  | succ n ih =>
    intro i k h1 h2 hfree hfirst
    by_cases hik : i = k
    · subst hik
      rw [registerLoop, if_pos hfree]
    · rw [registerLoop, if_neg (hfirst i (Nat.le_refl _) (by omega))]
      exact ih (i + 1) k (by omega) (by omega) hfree (fun j hj1 hj2 => hfirst j (by omega) hj2)

/-- C15: for a newly accepted socket `fd ≥ 0`, when slot `k` is the free slot
(`sock < 0`) of lowest index among the `MAX_CLIENTS` slots, the registration
step stores `fd` in `sock` of slot `k` and leaves its other fields and every
other slot unchanged; when no slot is free the table is unchanged. -/
theorem main_register_first_free (clients : Nat → ClientState) (fd : Int) (hfd : 0 ≤ fd) :
    (∀ k, k < MAX_CLIENTS → (clients k).sock < 0 →
      (∀ j, j < k → ¬ (clients j).sock < 0) →
      main_register clients fd k = { clients k with sock := fd } ∧
      ∀ j, j ≠ k → main_register clients fd j = clients j) ∧
    ((∀ j, j < MAX_CLIENTS → ¬ (clients j).sock < 0) → main_register clients fd = clients) := by
  have hge : fd ≥ 0 := hfd
  constructor
  · intro k hk hfree hfirst
    have hreg := registerLoop_first_free clients fd MAX_CLIENTS 0 k (Nat.zero_le _) (by omega)
      hfree (fun j _ hj => hfirst j hj)
    rw [main_register, if_pos hge, hreg]
    refine ⟨by simp, ?_⟩
    intro j hj
    simp [hj]
  · intro hfull
    rw [main_register, if_pos hge]
    exact registerLoop_no_free clients fd MAX_CLIENTS 0 (fun j _ hj => hfull j (by omega))

/-- Witness of C15: the table made by `init_clients` after two connections
have been registered; the socket `7` goes to slot 2. -/
theorem main_register_first_free_witness :
    (0 : Int) ≤ 7 ∧
    main_register (main_register (main_register
        (init_clients (fun _ => clientOf []) MAX_CLIENTS) 5) 6) 7 2 =
      { main_register (main_register
          (init_clients (fun _ => clientOf []) MAX_CLIENTS) 5) 6 2 with sock := 7 } ∧
    ∀ j, j ≠ 2 →
      main_register (main_register (main_register
          (init_clients (fun _ => clientOf []) MAX_CLIENTS) 5) 6) 7 j =
        main_register (main_register
          (init_clients (fun _ => clientOf []) MAX_CLIENTS) 5) 6 j :=
  ⟨by decide,
   (main_register_first_free (main_register (main_register
      (init_clients (fun _ => clientOf []) MAX_CLIENTS) 5) 6) 7 (by decide)).1 2
     (by decide) (by decide) (by decide)⟩

/-! ## C17: the file name of the upload -/

/-- C17 at an input where the stream is split inside the disposition line:
the buffer ends with the boundary line and the first part of the
disposition line, the rest arrives with the next `read`.  After the
boundary line is removed no terminator is buffered, `where` is `-1`, and
the function indexes `buf[where - 1]` instead of reading on: no file name
is returned.  With the same bytes buffered in full the result is `dog.bmp`. -/
theorem get_bitmap_filename_split_line :
    isUndef (get_bitmap_filename 20 (str "------WebKit77")
      (clientOf (str "Content-Length: 300\r\n\r\n------WebKit77\r\n" ++
        str "Content-Disposition: form-data; name=\"myfile\"; filen"))
      [some (str "ame=\"dog.bmp\"\r\nContent-Type: image/bmp\r\n\r\n" ++ bmp10 ++ uploadFooter)])
      = true ∧
    returnedString (get_bitmap_filename 20 (str "------WebKit77")
      (clientOf (str "Content-Length: 300\r\n\r\n------WebKit77\r\n" ++
        str "Content-Disposition: form-data; name=\"myfile\"; filen"))
      [some (str "ame=\"dog.bmp\"\r\nContent-Type: image/bmp\r\n\r\n" ++ bmp10 ++ uploadFooter)])
      = none ∧
    returnedString (get_bitmap_filename 20 (str "------WebKit77")
      (clientOf (str "Content-Length: 300\r\n\r\n------WebKit77\r\n" ++
        str "Content-Disposition: form-data; name=\"myfile\"; filen" ++
        str "ame=\"dog.bmp\"\r\nContent-Type: image/bmp\r\n\r\n"))
      [some (bmp10 ++ uploadFooter)])
      = some (some (str "dog.bmp")) := by
  refine ⟨by decide, by decide, by decide⟩

/-! ## C16: the boundary string -/

theorem lineEnd_le : ∀ (l : List Nat) (p : Nat), lineEnd l = some p → 2 ≤ p ∧ p ≤ l.length := by
  intro l
  induction l with
  | nil => intro p h; simp [lineEnd] at h
  | cons a t ih =>
    intro p h
    cases t with
    | nil => simp [lineEnd] at h
    | cons b r =>
      rw [lineEnd] at h
      split at h
      · cases h; simp
      · cases hq : lineEnd (b :: r) with
        | none => rw [hq] at h; simp at h
        | some q =>
          rw [hq] at h
          simp at h
          have := ih q hq
          simp at this ⊢
          omega

theorem lineEnd_append : ∀ (l r : List Nat) (p : Nat), lineEnd l = some p →
    lineEnd (l ++ r) = some p := by
  intro l
  induction l with
  | nil => intro r p h; simp [lineEnd] at h
  | cons a t ih =>
    intro r p h
    cases t with
    | nil => simp [lineEnd] at h
    | cons b u =>
      rw [lineEnd] at h
      simp only [List.cons_append]
      rw [lineEnd]
      split at h
      · rename_i hp
        rw [if_pos hp]; exact h
      · rename_i hp
        rw [if_neg hp]
        cases hq : lineEnd (b :: u) with
        | none => rw [hq] at h; simp at h
        | some q =>
          rw [hq] at h
          have := ih r q hq
          simp only [List.cons_append] at this
          rw [this]
          exact h

/-- A proper initial part of a line holds no CRLF pair. -/
theorem lineEnd_proper_part (b y : List Nat) (hy : y ≠ []) (hl : isLine (b ++ y)) :
    lineEnd b = none := by
  cases hb : lineEnd b with
  | none => rfl
  | some p =>
    have h1 := lineEnd_append b y p hb
    rw [isLine, h1] at hl
    have h2 := (lineEnd_le b p hb).2
    have h3 : 0 < y.length := List.length_pos.2 hy
    simp at hl
    omega

/-- The search on memory that holds `l` from offset `k` on, followed by a
byte that is no line feed, in terms of `lineEnd`. -/
theorem fnnLoop_lineEnd (buf : Mem) :
    ∀ (l : List Nat) (k : Nat), slice buf k l.length = l → buf (k + l.length) ≠ LF →
      fnnLoop buf l.length k =
        match lineEnd l with
        | some p => ((k + p : Nat) : Int)
        | none => -1 := by
  intro l
  induction l with
  | nil => intro k _ _; rfl
  | cons a t ih =>
    intro k hs hend
    obtain ⟨h0, h1⟩ := slice_eq_cons buf a t k hs
    cases t with
    | nil =>
      have hno : ¬ (buf k = CR ∧ buf (k + 1) = LF) := fun h => hend (by simpa using h.2)
      simp [fnnLoop, hno, lineEnd]
    | cons b u =>
      obtain ⟨h2, _⟩ := slice_eq_cons buf b u (k + 1) h1
      have hend2 : buf (k + 1 + (b :: u).length) ≠ LF := by
        have e : k + 1 + (b :: u).length = k + (a :: b :: u).length := by simp; omega
        rw [e]; exact hend
      have hrec := ih (k + 1) h1 hend2
      simp only [List.length_cons] at hrec ⊢
      rw [fnnLoop, h0, h2, lineEnd]
      by_cases hp : a = CR ∧ b = LF
      · simp [hp]
      · rw [if_neg hp, if_neg hp, hrec]
        cases lineEnd (b :: u) with
        | none => rfl
        | some q =>
          show ((k + 1 + q : Nat) : Int) = ((k + (q + 1) : Nat) : Int)
          rw [show k + 1 + q = k + (q + 1) by omega]

/-- `find_network_newline` on a client that buffers `l`. -/
theorem find_network_newline_buffered (c : ClientState) (l : List Nat) (hb : Buffered c l) :
    find_network_newline c.buf c.num_bytes =
      match lineEnd l with
      | some p => (p : Int)
      | none => -1 := by
  obtain ⟨hn, hs, ht⟩ := hb
  rw [find_network_newline, hn, Int.toNat_ofNat]
  have := fnnLoop_lineEnd c.buf l 0 hs (by rw [Nat.zero_add, ht]; decide)
  rw [this]
  cases lineEnd l with
  | none => rfl
  | some p => simp

theorem isLine_length (x : List Nat) (hx : isLine x) : 2 ≤ x.length :=
  (lineEnd_le x x.length hx).1

/-- `remove_buffered_line` on a client that buffers the line `x` followed by
`rest`: the client buffers `rest` afterwards. -/
theorem remove_buffered_line_buffered (c : ClientState) (x rest : List Nat)
    (hb : Buffered c (x ++ rest)) (hx : isLine x) :
    ∃ c1, remove_buffered_line c = .ok c1 ∧ Buffered c1 rest ∧ c1.sock = c.sock ∧
      c1.reqData = c.reqData := by
  have hfind : find_network_newline c.buf c.num_bytes = (x.length : Int) := by
    rw [find_network_newline_buffered c (x ++ rest) hb, lineEnd_append x rest x.length hx]
  obtain ⟨hn, hs, ht⟩ := hb
  rw [hn] at hfind
  have h2 := isLine_length x hx
  have hne : ¬ ((x.length : Int) = -1) := by omega
  have hlen : (((x ++ rest).length : Nat) : Int) - (x.length : Int) = (rest.length : Int) := by
    simp
  have hnn : ¬ ((rest.length : Int) < 0) := by omega
  have hr : remove_buffered_line c = .ok
      { c with buf := setByte (memmoveFront c.buf (x.length : Int).toNat (rest.length : Int).toNat)
                        (rest.length : Int) 0,
               num_bytes := (rest.length : Int) } := by
    simp only [remove_buffered_line, hfind, hn, hlen, if_neg hne, if_neg hnn]
  refine ⟨_, hr, ⟨rfl, ?_, ?_⟩, rfl, rfl⟩
  · apply slice_of_getD
    intro j hj
    have hj2 : ¬ ((((0 + j : Nat)) : Int) = (rest.length : Int)) := by omega
    have hj3 : 0 + j < rest.length := by omega
    simp only [setByte, memmoveFront, Int.toNat_ofNat, if_neg hj2, if_pos hj3]
    have := slice_getD c.buf (x ++ rest) 0 hs (x.length + (0 + j)) (by simp; omega)
    rw [Nat.zero_add] at this
    rw [this]
    simp [List.getD, List.getElem?_append_right]
  · simp [setByte]

/-- `read_from_client` on a client that buffers `b`, shorter than the
buffer, when the next chunk `ch` is not empty: a positive number of bytes is
appended. -/
theorem read_from_client_buffered (c : ClientState) (b ch : List Nat) (rest : Sock)
    (hb : Buffered c b) (hlen : b.length < MAXLINE - 1) (hch : ch ≠ []) :
    0 < (read_from_client c (some ch :: rest)).1 ∧
    Buffered (read_from_client c (some ch :: rest)).2.1 (b ++ ch.take (MAXLINE - 1 - b.length)) ∧
    (read_from_client c (some ch :: rest)).2.2 =
      (if MAXLINE - 1 - b.length < ch.length then some (ch.drop (MAXLINE - 1 - b.length)) :: rest
       else rest) ∧
    (read_from_client c (some ch :: rest)).2.1.sock = c.sock := by
  obtain ⟨hn, hs, ht⟩ := hb
  have hM : MAXLINE = 1024 := rfl
  have hne : ¬ (c.num_bytes = (MAXLINE : Int) - 1) := by rw [hn, hM]; omega
  have hcount : (MAXLINE : Int) - c.num_bytes - 1 = ((MAXLINE - 1 - b.length : Nat) : Int) := by
    rw [hn, hM]; omega
  have hcpos : ¬ (((MAXLINE - 1 - b.length : Nat) : Int) < 0) := by omega
  have hchlen : 0 < ch.length := List.length_pos.2 hch
  have hgot : 0 < (ch.take (MAXLINE - 1 - b.length)).length := by
    rw [List.length_take]; omega
  have hread : sockRead (some ch :: rest) ((MAXLINE : Int) - c.num_bytes - 1) =
      (((ch.take (MAXLINE - 1 - b.length)).length : Int), ch.take (MAXLINE - 1 - b.length),
        if MAXLINE - 1 - b.length < ch.length then some (ch.drop (MAXLINE - 1 - b.length)) :: rest
        else rest) := by
    rw [hcount]
    simp only [sockRead, if_neg hcpos, Int.toNat_ofNat]
  have hnneg : ¬ (((ch.take (MAXLINE - 1 - b.length)).length : Int) < 0) := by omega
  have hres : read_from_client c (some ch :: rest) =
      (((ch.take (MAXLINE - 1 - b.length)).length : Int),
        { c with
            buf := setByte (writeAt c.buf c.num_bytes (ch.take (MAXLINE - 1 - b.length)))
                     (c.num_bytes + ((ch.take (MAXLINE - 1 - b.length)).length : Int)) 0,
            num_bytes := c.num_bytes + ((ch.take (MAXLINE - 1 - b.length)).length : Int) },
        if MAXLINE - 1 - b.length < ch.length then some (ch.drop (MAXLINE - 1 - b.length)) :: rest
        else rest) := by
    simp only [read_from_client, if_neg hne, hread, if_neg hnneg]
  rw [hres]
  refine ⟨by simp only; omega, ⟨?_, ?_, ?_⟩, rfl, rfl⟩
  · simp only [List.length_append, hn]
    push_cast
    rfl
  · apply slice_of_getD
    intro j hj
    simp only [List.length_append] at hj
    have hj2 : ¬ ((((0 + j : Nat)) : Int) =
        c.num_bytes + ((ch.take (MAXLINE - 1 - b.length)).length : Int)) := by
      rw [hn]; omega
    simp only [setByte, writeAt, if_neg hj2]
    by_cases hjb : j < b.length
    · have hk : ¬ ((0 : Int) ≤ ((0 + j : Nat) : Int) - c.num_bytes ∧
          ((0 + j : Nat) : Int) - c.num_bytes <
            ((ch.take (MAXLINE - 1 - b.length)).length : Int)) := by
        rw [hn]; omega
      rw [if_neg hk]
      have := slice_getD c.buf b 0 hs j hjb
      rw [this]
      simp [List.getD, List.getElem?_append_left hjb]
    · have hk : (0 : Int) ≤ ((0 + j : Nat) : Int) - c.num_bytes ∧
          ((0 + j : Nat) : Int) - c.num_bytes <
            ((ch.take (MAXLINE - 1 - b.length)).length : Int) := by
        rw [hn]; omega
      rw [if_pos hk]
      have e : (((0 + j : Nat) : Int) - c.num_bytes).toNat = j - b.length := by
        rw [hn]; omega
      rw [e]
      simp [List.getD, List.getElem?_append_right (Nat.le_of_not_lt hjb)]
  · have e : (((b ++ ch.take (MAXLINE - 1 - b.length)).length : Nat) : Int) =
        c.num_bytes + ((ch.take (MAXLINE - 1 - b.length)).length : Int) := by
      rw [hn]; simp
    simp only [setByte, e, if_true]

theorem slice_take_buffered (c : ClientState) (l : List Nat) (k : Nat) (hb : Buffered c l)
    (hk : k ≤ l.length) : slice c.buf 0 k = l.take k := by
  have h := hb.2.1
  have e : l = l.take k ++ l.drop k := (List.take_append_drop k l).symm
  have hl : (l.take k).length = k := by rw [List.length_take]; omega
  rw [e] at h
  have := (slice_eq_append c.buf _ _ 0 h).1
  rw [hl] at this
  exact this

/-- One round of `get_boundary` on a buffered line that does not start with
the header: the line is removed. -/
theorem get_boundary_remove_step (H : List Nat) (n : Nat) (c : ClientState)
    (x rest : List Nat) (s : Sock) (hb : Buffered c (x ++ rest)) (hx : isLine x)
    (hno : x.take H.length ≠ H) :
    ∃ c1, get_boundary H (n + 1) c s = get_boundary H n c1 s ∧ Buffered c1 rest ∧
      c1.sock = c.sock := by
  have hfind : find_network_newline c.buf c.num_bytes = (x.length : Int) := by
    rw [find_network_newline_buffered c (x ++ rest) hb, lineEnd_append x rest x.length hx]
  have h2 := isLine_length x hx
  obtain ⟨c1, hr, hb1, hsock, _⟩ := remove_buffered_line_buffered c x rest hb hx
  have hpos : (x.length : Int) > 0 := by omega
  have hcond : (x.length : Int) < (H.length : Int) ∨ slice c.buf 0 H.length ≠ H := by
    by_cases hlt : x.length < H.length
    · left; omega
    · right
      rw [slice_take_buffered c (x ++ rest) H.length hb (by simp; omega),
        List.take_append_of_le_length (by omega)]
      exact hno
  refine ⟨c1, ?_, hb1, hsock⟩
  rw [get_boundary]
  simp only [hfind, if_pos hpos, if_pos hcond, hr]

/-- One round of `get_boundary` on a buffered line that starts with the
header: the boundary string is returned. -/
theorem get_boundary_found (H tok : List Nat) (n : Nat) (c : ClientState) (rest : List Nat)
    (s : Sock) (hb : Buffered c ((H ++ (tok ++ [CR, LF])) ++ rest))
    (hT : isLine (H ++ (tok ++ [CR, LF]))) (htok : ∀ b ∈ tok, b ≠ 0) :
    get_boundary H (n + 1) c s = .ok (some (str "--" ++ tok), c, s) := by
  have hfind : find_network_newline c.buf c.num_bytes =
      ((H ++ (tok ++ [CR, LF])).length : Int) := by
    rw [find_network_newline_buffered c _ hb, lineEnd_append _ rest _ hT]
  have hTl : ((H ++ (tok ++ [CR, LF])).length : Int) = (H.length : Int) + (tok.length : Int) + 2 := by
    simp only [List.length_append, List.length_cons, List.length_nil]
    omega
  rw [hTl] at hfind
  have hpos : (H.length : Int) + (tok.length : Int) + 2 > 0 := by omega
  have hH : slice c.buf 0 H.length = H := by
    rw [slice_take_buffered c _ H.length hb (by simp)]
    simp [List.append_assoc]
  have hcond : ¬ ((H.length : Int) + (tok.length : Int) + 2 < (H.length : Int) ∨
      slice c.buf 0 H.length ≠ H) := by
    rintro (h | h)
    · omega
    · exact h hH
  have hn3 : ¬ ((H.length : Int) + (tok.length : Int) + 2 - (H.length : Int) + 1 < 3) := by omega
  have e1 : ((H.length : Int) + (tok.length : Int) + 2 - (H.length : Int) - 1).toNat
      = (tok ++ [CR]).length := by simp; omega
  have e2 : ((H.length : Int) + (tok.length : Int) + 2 - (H.length : Int)).toNat
      = tok.length + 2 := by omega
  have hform : (H ++ (tok ++ [CR, LF])) ++ rest = H ++ ((tok ++ [CR]) ++ (LF :: rest)) := by
    simp
  have hs := hb.2.1
  rw [hform] at hs
  have hs2 := (slice_eq_append c.buf _ _ _ (slice_eq_append c.buf _ _ 0 hs).2).1
  rw [Nat.zero_add] at hs2
  have hc : cstr (tok ++ [CR]) = tok ++ [CR] := by
    apply cstr_eq_self
    intro b hbm
    rcases List.mem_append.1 hbm with h | h
    · exact htok b h
    · simp at h; subst h; decide
  have htake : (str "--" ++ (tok ++ [CR])).take (tok.length + 2) = str "--" ++ tok := by
    have e : str "--" ++ (tok ++ [CR]) = (str "--" ++ tok) ++ [CR] := by simp
    have l2 : (str "--" ++ tok).length = tok.length + 2 := by
      have : (str "--").length = 2 := by decide
      simp [this]; omega
    rw [e, ← l2, List.take_left]
  rw [get_boundary]
  simp only [hfind, if_pos hpos, if_neg hcond, if_neg hn3, e1, e2, hs2, hc, htake]

/-- One round of `get_boundary` when only a proper initial part `b` of a line
`b ++ y` is buffered: the next chunk is read and appended. -/
theorem get_boundary_read_step (H : List Nat) (n : Nat) (c : ClientState) (b y d : List Nat)
    (chunks : List (List Nat)) (hb : Buffered c b) (hch : ∀ ch ∈ chunks, ch ≠ [])
    (hy : y ≠ []) (hline : isLine (b ++ y)) (hlen : (b ++ y).length ≤ MAXLINE - 1)
    (hJ : chunks.flatten = y ++ d) :
    ∃ (c1 : ClientState) (t : List Nat) (chunks1 : List (List Nat)),
      get_boundary H (n + 1) c (chunks.map some) = get_boundary H n c1 (chunks1.map some) ∧
      Buffered c1 (b ++ t) ∧ (∀ ch ∈ chunks1, ch ≠ []) ∧ t ++ chunks1.flatten = chunks.flatten ∧
      t ≠ [] ∧ c1.sock = c.sock := by
  have hfind : find_network_newline c.buf c.num_bytes = -1 := by
    rw [find_network_newline_buffered c b hb, lineEnd_proper_part b y hy hline]
  have hnpos : ¬ ((-1 : Int) > 0) := by omega
  have hylen : 0 < y.length := List.length_pos.2 hy
  have hblen : b.length < MAXLINE - 1 := by
    simp only [List.length_append] at hlen; omega
  cases chunks with
  | nil => simp at hJ; exact absurd hJ.1 hy
  | cons ch rest =>
    have hchne : ch ≠ [] := hch ch (by simp)
    obtain ⟨hr1, hr2, hr3, hr4⟩ := read_from_client_buffered c b ch (rest.map some) hb hblen hchne
    have hnle : ¬ ((read_from_client c (some ch :: rest.map some)).1 ≤ 0) := by omega
    have hgotlen : 0 < (ch.take (MAXLINE - 1 - b.length)).length := by
      have hc0 : 0 < ch.length := List.length_pos.2 hchne
      rw [List.length_take]
      omega
    have hgotne : ch.take (MAXLINE - 1 - b.length) ≠ [] := by
      intro he
      rw [he] at hgotlen
      simp at hgotlen
    by_cases hk : MAXLINE - 1 - b.length < ch.length
    · refine ⟨(read_from_client c (some ch :: rest.map some)).2.1,
        ch.take (MAXLINE - 1 - b.length), ch.drop (MAXLINE - 1 - b.length) :: rest, ?_, hr2, ?_, ?_,
        hgotne, hr4⟩
      · rw [get_boundary]
        simp only [List.map_cons, hfind, if_neg hnpos, if_neg hnle, hr3, if_pos hk]
      · intro x hx
        rcases List.mem_cons.1 hx with h | h
        · subst h
          intro he
          have := congrArg List.length he
          rw [List.length_drop] at this
          simp at this
          omega
        · exact hch x (by simp [h])
      · simp [List.flatten_cons, ← List.append_assoc]
    · refine ⟨(read_from_client c (some ch :: rest.map some)).2.1,
        ch.take (MAXLINE - 1 - b.length), rest, ?_, hr2, ?_, ?_, hgotne, hr4⟩
      · rw [get_boundary]
        simp only [List.map_cons, hfind, if_neg hnpos, if_neg hnle, hr3, if_neg hk]
      · intro x hx
        exact hch x (by simp [hx])
      · rw [List.take_of_length_le (by omega)]
        simp [List.flatten_cons]

theorem stream_split (b j x d : List Nat) (h : b ++ j = x ++ d) :
    (∃ b1, b = x ++ b1 ∧ d = b1 ++ j) ∨ (∃ y, y ≠ [] ∧ x = b ++ y ∧ j = y ++ d) := by
  rcases List.append_eq_append_iff.1 h with ⟨a, h1, h2⟩ | ⟨a, h1, h2⟩
  · by_cases ha : a = []
    · subst ha
      left
      exact ⟨[], by simpa using h1.symm, by simpa using h2.symm⟩
    · right
      exact ⟨a, ha, h1, h2⟩
  · left
    exact ⟨a, h1, h2⟩

/-- The loop of `get_boundary` on a stream of lines: the buffered bytes `b`
and the chunks still to come make up the lines `ls`, none of which starts
with the header, then the line `H ++ tok ++ CRLF`, then `rest`. -/
theorem get_boundary_loop (H tok rest : List Nat)
    (hT : isLine (H ++ (tok ++ [CR, LF])))
    (hTlen : (H ++ (tok ++ [CR, LF])).length ≤ MAXLINE - 1)
    (htok : ∀ x ∈ tok, x ≠ 0) :
    ∀ (fuel : Nat) (c : ClientState) (b : List Nat) (chunks : List (List Nat))
      (ls : List (List Nat)),
      Buffered c b → (∀ ch ∈ chunks, ch ≠ []) →
      b ++ chunks.flatten = ls.flatten ++ ((H ++ (tok ++ [CR, LF])) ++ rest) →
      (∀ x ∈ ls, isLine x ∧ x.length ≤ MAXLINE - 1 ∧ x.take H.length ≠ H) →
      b.length + 2 * chunks.flatten.length < fuel →
      ∃ (c1 : ClientState) (b1 : List Nat) (chunks1 : List (List Nat)),
        get_boundary H fuel c (chunks.map some) =
          .ok (some (str "--" ++ tok), c1, chunks1.map some) ∧
        Buffered c1 ((H ++ (tok ++ [CR, LF])) ++ b1) ∧ b1 ++ chunks1.flatten = rest ∧
        c1.sock = c.sock := by
  intro fuel
  induction fuel with
  | zero => intro c b chunks ls _ _ _ _ h; omega
  | succ n ih =>
    intro c b chunks ls hb hch hstream hls hfuel
    cases ls with
    | nil =>
      simp only [List.flatten_nil, List.nil_append] at hstream
      rcases stream_split _ _ _ _ hstream with ⟨b1, h1, h2⟩ | ⟨y, hy, h1, h2⟩
      · subst h1
        exact ⟨c, b1, chunks, get_boundary_found H tok n c b1 _ hb hT htok, hb, h2.symm, rfl⟩
      · obtain ⟨c1, t, chunks1, hstep, hb1, hch1, hjoin, htne, hsock⟩ :=
          get_boundary_read_step H n c b y rest chunks hb hch hy (by rw [← h1]; exact hT)
            (by rw [← h1]; exact hTlen) h2
        have hlen : chunks.flatten.length = t.length + chunks1.flatten.length := by
          rw [← hjoin, List.length_append]
        have htl : 0 < t.length := List.length_pos.2 htne
        obtain ⟨c2, b2, chunks2, hres, hb2, hrest, hsock2⟩ :=
          ih c1 (b ++ t) chunks1 [] hb1 hch1
            (by rw [List.append_assoc, hjoin]; simpa using hstream)
            (by intro x hx; cases hx)
            (by rw [List.length_append]; omega)
        exact ⟨c2, b2, chunks2, by rw [hstep, hres], hb2, hrest, by rw [hsock2, hsock]⟩
    | cons x ls1 =>
      have hxl := hls x (by simp)
      rw [List.flatten_cons, List.append_assoc] at hstream
      rcases stream_split _ _ _ _ hstream with ⟨b1, h1, h2⟩ | ⟨y, hy, h1, h2⟩
      · subst h1
        obtain ⟨c1, hstep, hb1, hsock⟩ :=
          get_boundary_remove_step H n c x b1 (chunks.map some) hb hxl.1 hxl.2.2
        have hx2 := isLine_length x hxl.1
        obtain ⟨c2, b2, chunks2, hres, hb2, hrest, hsock2⟩ :=
          ih c1 b1 chunks ls1 hb1 hch h2.symm (fun z hz => hls z (by simp [hz]))
            (by rw [List.length_append] at hfuel; omega)
        exact ⟨c2, b2, chunks2, by rw [hstep, hres], hb2, hrest, by rw [hsock2, hsock]⟩
      · obtain ⟨c1, t, chunks1, hstep, hb1, hch1, hjoin, htne, hsock⟩ :=
          get_boundary_read_step H n c b y _ chunks hb hch hy (by rw [← h1]; exact hxl.1)
            (by rw [← h1]; exact hxl.2.1) h2
        have hlen : chunks.flatten.length = t.length + chunks1.flatten.length := by
          rw [← hjoin, List.length_append]
        have htl : 0 < t.length := List.length_pos.2 htne
        obtain ⟨c2, b2, chunks2, hres, hb2, hrest, hsock2⟩ :=
          ih c1 (b ++ t) chunks1 (x :: ls1) hb1 hch1
            (by rw [List.append_assoc, hjoin, List.flatten_cons, List.append_assoc]
                exact hstream)
            hls
            (by rw [List.length_append]; omega)
        exact ⟨c2, b2, chunks2, by rw [hstep, hres], hb2, hrest, by rw [hsock2, hsock]⟩

/-- C16 (amended): the buffered bytes `b` and the chunks still to come form
lines of at most `MAXLINE - 1` bytes none of which starts with
`POST_BOUNDARY_HEADER`, followed by the line `H ++ tok ++ CRLF` of at most
`MAXLINE - 1` bytes whose text `tok` contains no zero byte.  With enough
fuel `get_boundary` returns `"--" ++ tok`, of length
`(line length - header length - 2) + 2`; every earlier line has been
consumed, the buffer starts with the line of the header, and what is
buffered behind it together with the unread chunks is the rest of the
stream. -/
theorem get_boundary_returns_token (H tok rest : List Nat) (ls : List (List Nat))
    (c : ClientState) (b : List Nat) (chunks : List (List Nat)) (fuel : Nat)
    (hb : Buffered c b) (hch : ∀ ch ∈ chunks, ch ≠ [])
    (hstream : b ++ chunks.flatten = ls.flatten ++ ((H ++ (tok ++ [CR, LF])) ++ rest))
    (hls : ∀ x ∈ ls, isLine x ∧ x.length ≤ MAXLINE - 1 ∧ x.take H.length ≠ H)
    (hT : isLine (H ++ (tok ++ [CR, LF])))
    (hTlen : (H ++ (tok ++ [CR, LF])).length ≤ MAXLINE - 1)
    (htok : ∀ x ∈ tok, x ≠ 0)
    (hfuel : b.length + 2 * chunks.flatten.length < fuel) :
    ∃ (c1 : ClientState) (b1 : List Nat) (chunks1 : List (List Nat)),
      get_boundary H fuel c (chunks.map some) =
        .ok (some (str "--" ++ tok), c1, chunks1.map some) ∧
      (str "--" ++ tok).length = ((H ++ (tok ++ [CR, LF])).length - H.length - 2) + 2 ∧
      Buffered c1 ((H ++ (tok ++ [CR, LF])) ++ b1) ∧ b1 ++ chunks1.flatten = rest := by
  obtain ⟨c1, b1, chunks1, h1, h2, h3, _⟩ :=
    get_boundary_loop H tok rest hT hTlen htok fuel c b chunks ls hb hch hstream hls hfuel
  refine ⟨c1, b1, chunks1, h1, ?_, h2, h3⟩
  have : (str "--").length = 2 := by decide
  simp only [List.length_append, List.length_cons, List.length_nil, this]
  omega

/-- Witness of C16 (amended): the header lines of the example upload, split
inside the line of the header. -/
theorem get_boundary_returns_token_witness :
    ∃ (c1 : ClientState) (b1 : List Nat) (chunks1 : List (List Nat)),
      get_boundary exampleHeader.POST_BOUNDARY_HEADER 200
          (clientOf (str "Host: x\r\nContent-Ty"))
          ([str "pe: multipart/form-data; boundary=----Web", str "Kit77\r\nContent-Le",
            str "ngth: 300\r\n\r\n"].map some) =
        .ok (some (str "--" ++ str "----WebKit77"), c1, chunks1.map some) ∧
      (str "--" ++ str "----WebKit77").length =
        ((exampleHeader.POST_BOUNDARY_HEADER ++ (str "----WebKit77" ++ [CR, LF])).length -
          exampleHeader.POST_BOUNDARY_HEADER.length - 2) + 2 ∧
      Buffered c1 ((exampleHeader.POST_BOUNDARY_HEADER ++ (str "----WebKit77" ++ [CR, LF])) ++ b1) ∧
      b1 ++ chunks1.flatten = str "Content-Length: 300\r\n\r\n" :=
  get_boundary_returns_token exampleHeader.POST_BOUNDARY_HEADER (str "----WebKit77")
    (str "Content-Length: 300\r\n\r\n") [str "Host: x\r\n"]
    (clientOf (str "Host: x\r\nContent-Ty")) (str "Host: x\r\nContent-Ty")
    [str "pe: multipart/form-data; boundary=----Web", str "Kit77\r\nContent-Le",
      str "ngth: 300\r\n\r\n"] 200
    (by decide) (by decide) (by decide) (by decide) (by decide) (by decide) (by decide)
    (by decide)

/-- C16 fails as stated: the buffered line
`Content-Type: multipart/form-data; boundary=ab<NUL>cd\r\n` starts with the
header and is followed by the text `ab<NUL>cd`; `strncat` stops at the zero
byte and the returned string is `--ab`, of length 4 and not
`(line length - header length - 2) + 2 = 7`. -/
theorem get_boundary_zero_byte_counterexample :
    isLine (exampleHeader.POST_BOUNDARY_HEADER ++ ([97, 98, 0, 99, 100] ++ [CR, LF])) ∧
    returnedString (get_boundary exampleHeader.POST_BOUNDARY_HEADER 5
      (clientOf (exampleHeader.POST_BOUNDARY_HEADER ++ ([97, 98, 0, 99, 100] ++ [CR, LF]))) [])
      = some (some (str "--ab")) ∧
    (str "--ab").length ≠
      ((exampleHeader.POST_BOUNDARY_HEADER ++ ([97, 98, 0, 99, 100] ++ [CR, LF])).length -
        exampleHeader.POST_BOUNDARY_HEADER.length - 2) + 2 := by
  refine ⟨by decide, by decide, by decide⟩

end ImgSrv
